import Mathlib

/-!
Shallow embedding of the combinatorial-suite maximum-matching engines
(`src/algorithms/*/cpp/*.cpp`) and proofs about the spec's claims.

Conventions used throughout:
  * C++ `int` vertex values are embedded as `Int` at the raw-input boundary
    (where negative endpoints matter) and as `Nat` once inside an engine
    (all in-engine vertices lie in `[0, n)`).
  * `NIL` (= -1) fields are embedded as `Option Nat` (`none` = NIL).
  * C++ `while` loops whose bound is not structural take an explicit fuel
    argument and return `none` when the fuel is exhausted; the engines
    always terminate on the inputs we evaluate, with fuel to spare.
  * `std::vector<T>` indexed by vertices is embedded as `List T` with
    `List.getD` / `List.set`; every in-engine index is `< n` by
    construction, mirroring the C++ in-bounds accesses.  Constructors that
    can index out of bounds in C++ (no `>= 0` endpoint check) are embedded
    in `Option`, `none` marking the out-of-bounds access.
-/

namespace CombSuite

/-- `std::sort` (ascending) on a vertex list. -/
def csort (l : List Nat) : List Nat := l.insertionSort (· ≤ ·)

/-- Tail of `std::unique`: drop elements equal to the previous kept
one. -/
def cuniqueAux (prev : Nat) : List Nat → List Nat
  | [] => []
  | b :: rest =>
    if prev = b then cuniqueAux prev rest else b :: cuniqueAux b rest

/-- `std::unique` on a sorted range followed by `erase`: drop consecutive
duplicates (the first element of each run is kept). -/
def cunique : List Nat → List Nat
  | [] => []
  | a :: rest => a :: cuniqueAux a rest

/-- `graph[u].push_back(w)`. -/
def pushAdj (g : List (List Nat)) (u w : Nat) : List (List Nat) :=
  g.set u (g.getD u [] ++ [w])

/-- Membership in the normalized input edge set: both endpoints in
`[0, n)`, not a self-loop, and the pair occurs in the raw input in either
orientation. -/
def edgeInInput (n : Nat) (es : List (Int × Int)) (u v : Nat) : Prop :=
  u < n ∧ v < n ∧ u ≠ v ∧
    (((u : Int), (v : Int)) ∈ es ∨ ((v : Int), (u : Int)) ∈ es)

instance (n : Nat) (es : List (Int × Int)) (u v : Nat) :
    Decidable (edgeInInput n es u v) := by
  unfold edgeInInput; infer_instance

/-- The edge filter shared by `GabowSimple`, `Solver`
(edmonds_blossom_optimized) and `MVGraph::build` (micali_vazirani_pure):
`u >= 0 && u < n && v >= 0 && v < n && u != v`. -/
def edgeOkFull (n : Nat) (u v : Int) : Prop :=
  0 ≤ u ∧ u < (n : Int) ∧ 0 ≤ v ∧ v < (n : Int) ∧ u ≠ v

instance (n : Nat) (u v : Int) : Decidable (edgeOkFull n u v) := by
  unfold edgeOkFull; infer_instance

/-- Raw adjacency accumulation for the constructors that check both
bounds (gabow_simple.cpp lines 69-75 and its twins). -/
def rawAdjFull (n : Nat) (es : List (Int × Int)) : List (List Nat) :=
  es.foldl
    (fun g e =>
      if edgeOkFull n e.1 e.2 then
        pushAdj (pushAdj g e.1.toNat e.2.toNat) e.2.toNat e.1.toNat
      else g)
    (List.replicate n [])

/-- `GabowSimple::GabowSimple` adjacency: filter, push both directions,
then per-vertex `std::sort` + `std::unique`/`erase`. -/
def gabowGraph (n : Nat) (es : List (Int × Int)) : List (List Nat) :=
  (rawAdjFull n es).map (fun a => cunique (csort a))

/-- The neighbors a single input edge contributes to vertex `u`'s raw
adjacency list (both push directions, in program order). -/
def edgeContrib (n u : Nat) (e : Int × Int) : List Nat :=
  if edgeOkFull n e.1 e.2 then
    (if e.1.toNat = u then [e.2.toNat] else []) ++
    (if e.2.toNat = u then [e.1.toNat] else [])
  else []

/-- The edge filter of `MicaliVazirani::MicaliVazirani`
(micali_vazirani.cpp line 65) and `GabowOptimized::GabowOptimized`
(gabow_optimized.cpp line 66): `u < n && v < n && u != v` — no lower
bound check. -/
def edgeOkNoLower (n : Nat) (u v : Int) : Prop :=
  u < (n : Int) ∧ v < (n : Int) ∧ u ≠ v

instance (n : Nat) (u v : Int) : Decidable (edgeOkNoLower n u v) := by
  unfold edgeOkNoLower; infer_instance

/-- Raw adjacency accumulation for the two constructors missing the
`>= 0` check.  A negative endpoint passes the filter and the C++ then
evaluates `graph[u].push_back(v)` with a negative index; the embedding
returns `none` at that point (out-of-bounds access). -/
def rawAdjNoLower (n : Nat) (es : List (Int × Int)) :
    Option (List (List Nat)) :=
  es.foldlM
    (fun g (e : Int × Int) =>
      if edgeOkNoLower n e.1 e.2 then
        if 0 ≤ e.1 ∧ 0 ≤ e.2 then
          some (pushAdj (pushAdj g e.1.toNat e.2.toNat) e.2.toNat e.1.toNat)
        else none
      else some g)
    (List.replicate n [])

/-- `MicaliVazirani` / `GabowOptimized` adjacency: per-vertex `std::sort`
only — no `std::unique`, duplicate edges stay in the lists. -/
def mvHybridGraph (n : Nat) (es : List (Int × Int)) :
    Option (List (List Nat)) :=
  (rawAdjNoLower n es).map (fun g => g.map csort)

/-- `std::sort` on a vector of `(u,v)` pairs: lexicographic order. -/
def pairLe (p q : Nat × Nat) : Prop :=
  p.1 < q.1 ∨ (p.1 = q.1 ∧ p.2 ≤ q.2)

instance (p q : Nat × Nat) : Decidable (pairLe p q) := by
  unfold pairLe; infer_instance

def sortPairs (l : List (Nat × Nat)) : List (Nat × Nat) :=
  l.insertionSort pairLe

instance : IsTotal (Nat × Nat) pairLe :=
  ⟨by intro a b; unfold pairLe; omega⟩

instance : IsTrans (Nat × Nat) pairLe :=
  ⟨by intro a b c; unfold pairLe; omega⟩

instance : IsAntisymm (Nat × Nat) pairLe :=
  ⟨by intro a b h h'; unfold pairLe at h h'; obtain ⟨x, y⟩ := a; obtain ⟨z, w⟩ := b; simp at h h' ⊢; omega⟩

/-! ## GabowSimple (gabow_simple.cpp) -/

namespace GS

/-- labels: `UNLABELED = 0`, `EVEN = 1`, `ODD = 2`. -/
def EVEN : Nat := 1

def ODD : Nat := 2

/-- Per-solver state of `struct GabowSimple`.  `queue` together with
`qhead` embeds the preallocated array plus the `qhead`/`qtail` cursors:
`queue[qtail++] = v` is an append, `queue[qhead++]` reads at `qhead`. -/
structure St where
  n : Nat
  graph : List (List Nat)
  mate : List (Option Nat)
  base : List Nat
  parent : List (Option Nat)
  label : List Nat
  bridgeSrc : List (Option Nat)
  bridgeTgt : List (Option Nat)
  queue : List Nat
  qhead : Nat
deriving Repr, DecidableEq

/-- `GabowSimple::GabowSimple`. -/
def init (n : Nat) (es : List (Int × Int)) : St :=
  { n := n
    graph := gabowGraph n es
    mate := List.replicate n none
    base := List.replicate n 0
    parent := List.replicate n none
    label := List.replicate n 0
    bridgeSrc := List.replicate n none
    bridgeTgt := List.replicate n none
    queue := []
    qhead := 0 }

/-- `GabowSimple::find_base` — path-halving find, mutates `base`. -/
def findBase (fuel : Nat) (base : List Nat) (v : Nat) :
    Option (List Nat × Nat) :=
  match fuel with
  | 0 => none
  | fuel + 1 =>
    let bv := base.getD v 0
    if bv = v then some (base, v)
    else
      let bbv := base.getD bv 0
      findBase fuel (base.set v bbv) bbv

/-- One climb step of `find_lca` from the side at `h`:
`h := find_base(parent[mate[h]])`.  Returns `none` if a NIL field is
dereferenced (cannot happen in a consistent state). -/
def lcaClimb (fuel : Nat) (s : St) (h : Nat) : Option (List Nat × Nat) := do
  let mh ← s.mate.getD h none
  let pmh ← s.parent.getD mh none
  findBase fuel s.base pmh

/-- Loop body of `GabowSimple::find_lca`; `tag1`/`tag2` are the fresh
epoch marks of the current call. -/
def lcaLoop (fuel : Nat) (s : St) (tag1 tag2 : List Bool) (hx hy : Nat) :
    Option (St × Option Nat) :=
  match fuel with
  | 0 => none
  | fuel + 1 =>
    if tag1.getD hy false then some (s, some hy)
    else if tag2.getD hx false then some (s, some hx)
    else
      let hxr := (s.mate.getD hx none).isNone
      let hyr := (s.mate.getD hy none).isNone
      if hxr ∧ hyr then some (s, none)
      else do
        let (s, tag1, hx) ←
          if hxr then pure (s, tag1, hx)
          else do
            let (b, hx') ← lcaClimb fuel s hx
            pure ({ s with base := b }, tag1.set hx' true, hx')
        let (s, tag2, hy) ←
          if hyr then pure (s, tag2, hy)
          else do
            let (b, hy') ← lcaClimb fuel s hy
            pure ({ s with base := b }, tag2.set hy' true, hy')
        lcaLoop fuel s tag1 tag2 hx hy

/-- `GabowSimple::find_lca` — interleaved LCA; `some hy`/`some hx` is the
LCA base, `none` (inner) means different trees. -/
def findLca (fuel : Nat) (s : St) (u v : Nat) :
    Option (St × Option Nat) := do
  let (b, hx) ← findBase fuel s.base u
  let s := { s with base := b }
  let (b, hy) ← findBase fuel s.base v
  let s := { s with base := b }
  let tag1 := (List.replicate s.n false).set hx true
  let tag2 := (List.replicate s.n false).set hy true
  lcaLoop fuel s tag1 tag2 hx hy

/-- Loop body of `GabowSimple::shrink_path`. -/
def shrinkLoop (fuel : Nat) (s : St) (lca x y v : Nat) : Option St :=
  match fuel with
  | 0 => none
  | fuel + 1 =>
    if v = lca then some s
    else do
      let mv ← s.mate.getD v none
      let (b, fv) ← findBase fuel s.base v
      let b := b.set fv lca
      let (b, fmv) ← findBase fuel b mv
      let b := (b.set fmv lca).set lca lca
      let s := { s with
        base := b
        bridgeSrc := s.bridgeSrc.set mv (some x)
        bridgeTgt := s.bridgeTgt.set mv (some y) }
      let s :=
        if s.label.getD mv 0 ≠ EVEN then
          { s with label := s.label.set mv EVEN, queue := s.queue ++ [mv] }
        else s
      let pmv ← s.parent.getD mv none
      let (b, v') ← findBase fuel s.base pmv
      shrinkLoop fuel { s with base := b } lca x y v'

/-- `GabowSimple::shrink_path`: `v = find_base(x)` then the union walk up
to `lca`. -/
def shrinkPath (fuel : Nat) (s : St) (lca x y : Nat) : Option St := do
  let (b, v) ← findBase fuel s.base x
  shrinkLoop fuel { s with base := b } lca x y v

/-- Stack frame of `GabowSimple::trace_path` (`phase`, `sb`, `tb` as in
the C++ `Frame`; `u` is the target, `none` embedding `NIL`). -/
structure Frame where
  v : Nat
  u : Option Nat
  phase : Nat
  sb : Nat
  tb : Nat
deriving Repr, DecidableEq

/-- `GabowSimple::trace_path` — iterative trace collecting the edge pairs
to flip; the stack top is the list head. -/
def traceLoop (fuel : Nat) (s : St) (stk : List Frame)
    (pairs : List (Nat × Nat)) : Option (List (Nat × Nat)) :=
  match fuel with
  | 0 => none
  | fuel + 1 =>
    match stk with
    | [] => some pairs
    | f :: rest =>
      if f.u = some f.v then traceLoop fuel s rest pairs
      else if f.phase = 0 then
        match s.bridgeSrc.getD f.v none with
        | none =>
          match s.mate.getD f.v none with
          | none => traceLoop fuel s rest pairs
          | some mv =>
            match s.parent.getD mv none with
            | none => none
            | some pmv =>
              traceLoop fuel s ({ f with v := pmv } :: rest)
                (pairs ++ [(mv, pmv)])
        | some sb =>
          match s.bridgeTgt.getD f.v none with
          | none => none
          | some tb =>
            traceLoop fuel s
              (⟨sb, s.mate.getD f.v none, 0, 0, 0⟩ ::
                { f with phase := 1, sb := sb, tb := tb } :: rest)
              pairs
      else if f.phase = 1 then
        traceLoop fuel s
          (⟨f.tb, f.u, 0, 0, 0⟩ :: { f with phase := 2 } :: rest)
          (pairs ++ [(f.sb, f.tb)])
      else traceLoop fuel s rest pairs

def tracePath (fuel : Nat) (s : St) (v : Nat) (u : Option Nat)
    (pairs : List (Nat × Nat)) : Option (List (Nat × Nat)) :=
  traceLoop fuel s [⟨v, u, 0, 0, 0⟩] pairs

/-- The flip loop of `augment_two_sides`: `mate[a] = b; mate[b] = a` for
each collected pair, in order. -/
def flipPairs (mate : List (Option Nat)) (pairs : List (Nat × Nat)) :
    List (Option Nat) :=
  pairs.foldl (fun m p => (m.set p.1 (some p.2)).set p.2 (some p.1)) mate

/-- `GabowSimple::augment_two_sides`. -/
def augmentTwoSides (fuel : Nat) (s : St) (u v : Nat) : Option St := do
  let pairs := [(u, v)]
  let pairs ← tracePath fuel s u none pairs
  let pairs ← tracePath fuel s v none pairs
  some { s with mate := flipPairs s.mate pairs }

/-- The neighbor scan of `find_and_augment` for `v : graph[u]`; returns
the updated state plus `some true` when an augmentation happened. -/
def scanNeighbors (fuel : Nat) (s : St) (u : Nat) (nbrs : List Nat) :
    Option (St × Bool) :=
  match nbrs with
  | [] => some (s, false)
  | v :: rest => do
    let (b, bu) ← findBase fuel s.base u
    let (b, bv) ← findBase fuel b v
    let s := { s with base := b }
    if bu = bv then scanNeighbors fuel s u rest
    else if s.mate.getD u none = some v then scanNeighbors fuel s u rest
    else if s.label.getD bv 0 = 0 then do
      let w ← s.mate.getD v none
      let s := { s with
        label := (s.label.set v ODD).set w EVEN
        parent := s.parent.set v (some u)
        queue := s.queue ++ [w] }
      scanNeighbors fuel s u rest
    else if s.label.getD bv 0 = EVEN then do
      let (s, lca) ← findLca fuel s u v
      match lca with
      | some l => do
        let s ← shrinkPath fuel s l u v
        let s ← shrinkPath fuel s l v u
        scanNeighbors fuel s u rest
      | none => do
        let s ← augmentTwoSides fuel s u v
        some (s, true)
    else scanNeighbors fuel s u rest

/-- The BFS loop of `find_and_augment` (`while (qhead < qtail)`). -/
def bfsLoop (fuel : Nat) (s : St) : Option (St × Bool) :=
  match fuel with
  | 0 => none
  | fuel + 1 =>
    match s.queue.get? s.qhead with
    | none => some (s, false)
    | some u => do
      let s := { s with qhead := s.qhead + 1 }
      let (b, bu) ← findBase fuel s.base u
      let s := { s with base := b }
      if s.label.getD bu 0 ≠ EVEN then bfsLoop fuel s
      else do
        let (s, augmented) ← scanNeighbors fuel s u (s.graph.getD u [])
        if augmented then some (s, true) else bfsLoop fuel s

/-- `GabowSimple::find_and_augment`: per-stage reset, seed the queue with
all free vertices, run the BFS. -/
def findAndAugment (fuel : Nat) (s : St) : Option (St × Bool) :=
  let n := s.n
  let s := { s with
    base := List.range n
    parent := List.replicate n none
    label := List.replicate n 0
    bridgeSrc := List.replicate n none
    bridgeTgt := List.replicate n none
    queue := []
    qhead := 0 }
  let s := (List.range n).foldl
    (fun s v =>
      if (s.mate.getD v none).isNone then
        { s with label := s.label.set v EVEN, queue := s.queue ++ [v] }
      else s) s
  bfsLoop fuel s

/-- `GabowSimple::greedy_init` (`--greedy`). -/
def greedyInit (s : St) : St :=
  (List.range s.n).foldl
    (fun s u =>
      if (s.mate.getD u none).isSome then s
      else
        match (s.graph.getD u []).find? (fun v => (s.mate.getD v none).isNone) with
        | some v => { s with mate := (s.mate.set u (some v)).set v (some u) }
        | none => s) s

/-- `GabowSimple::greedy_init_md` (`--greedy-md`): vertices in ascending
degree (ties by id), matched to the first lowest-degree free neighbor. -/
def greedyInitMd (s : St) : St :=
  let deg := (List.range s.n).foldl
    (fun d u => (s.graph.getD u []).foldl (fun d v => d.set v (d.getD v 0 + 1)) d)
    (List.replicate s.n 0)
  let order := (List.range s.n).insertionSort
    (fun a b => deg.getD a 0 < deg.getD b 0 ∨ (deg.getD a 0 = deg.getD b 0 ∧ a ≤ b))
  order.foldl
    (fun s u =>
      if (s.mate.getD u none).isSome then s
      else
        let best := (s.graph.getD u []).foldl
          (fun best v =>
            if (s.mate.getD v none).isNone ∧
                deg.getD v 0 < best.2 then (some v, deg.getD v 0) else best)
          ((none : Option Nat), (s.n + 1) * (s.n + 1))
        match best.1 with
        | some b => { s with mate := (s.mate.set u (some b)).set b (some u) }
        | none => s) s

/-- `while (find_and_augment()) {}`. -/
def stageLoop (fuel : Nat) (s : St) : Option St :=
  match fuel with
  | 0 => none
  | fuel + 1 => do
    let (s, augmented) ← findAndAugment fuel s
    if augmented then stageLoop fuel s else some s

/-- The result extraction of `GabowSimple::maximum_matching`:
`(u, mate[u])` whenever `mate[u] > u`, then `std::sort`. -/
def extract (n : Nat) (mate : List (Option Nat)) : List (Nat × Nat) :=
  sortPairs ((List.range n).filterMap
    (fun u =>
      match mate.getD u none with
      | some w => if w > u then some (u, w) else none
      | none => none))

/-- `GabowSimple::maximum_matching` (`greedy_mode` 0/1/2). -/
def maximumMatching (fuel : Nat) (greedyMode : Nat) (n : Nat)
    (es : List (Int × Int)) : Option (List (Nat × Nat)) := do
  let s := init n es
  let s := if greedyMode = 1 then greedyInit s
           else if greedyMode = 2 then greedyInitMd s else s
  let s ← stageLoop fuel s
  some (extract s.n s.mate)

end GS

/-! ## Hybrid Micali-Vazirani (micali_vazirani.cpp)

`Node::preds`, `Node::hanging_bridges`, `even_level` and `odd_level` are
written but never read in this engine; they are omitted from the state.
`base` is allocated uninitialized by the constructor and reset by
`phase_1` before any read (`find_base` runs only inside `phase_2`); the
embedding initializes it to zeros. -/

namespace MVH

/-- State of `class MicaliVazirani`.  `mate` embeds `Node::match`,
`minLevel` embeds `Node::min_level` (`none` = `UNSET`). -/
structure St where
  n : Nat
  graph : List (List Nat)
  mate : List (Option Nat)
  minLevel : List (Option Nat)
  base : List Nat
  levels : List (List Nat)
  matchnum : Nat
deriving Repr, DecidableEq

/-- `MicaliVazirani::MicaliVazirani` — `none` when a negative endpoint
reaches `graph[u].push_back` (out-of-bounds index). -/
def init (n : Nat) (es : List (Int × Int)) : Option St := do
  let g ← mvHybridGraph n es
  some { n := n
         graph := g
         mate := List.replicate n none
         minLevel := List.replicate n none
         base := List.replicate n 0
         levels := []
         matchnum := 0 }

/-- `MicaliVazirani::find_base` — recursive find with path compression. -/
def findBase (fuel : Nat) (base : List Nat) (v : Nat) :
    Option (List Nat × Nat) :=
  match fuel with
  | 0 => none
  | fuel + 1 =>
    let bv := base.getD v 0
    if bv ≠ v then do
      let (b, r) ← findBase fuel base bv
      some (b.set v r, r)
    else some (base, v)

/-- `MicaliVazirani::add_to_level` (resize + push_back). -/
def addToLevel (levels : List (List Nat)) (level node : Nat) :
    List (List Nat) :=
  let ls :=
    if levels.length ≤ level then
      levels ++ List.replicate (level + 1 - levels.length) []
    else levels
  ls.set level (ls.getD level [] ++ [node])

/-- `MicaliVazirani::step_to` (the dead `preds.push_back` is dropped). -/
def stepTo (s : St) (toV fromV level : Nat) : St :=
  let _ := fromV
  let lvl := level + 1
  match s.minLevel.getD toV none with
  | none =>
    { s with
      levels := addToLevel s.levels lvl toV
      minLevel := s.minLevel.set toV (some lvl) }
  | some tl =>
    if lvl ≤ tl ∧ tl ≠ lvl then
      { s with
        levels := addToLevel s.levels lvl toV
        minLevel := s.minLevel.set toV (some lvl) }
    else s

/-- `MicaliVazirani::phase_1` — base/level reset then level-by-level
construction. -/
def phase1 (s : St) : St :=
  let n := s.n
  let s := { s with
    levels := []
    base := List.range n
    minLevel := List.replicate n none }
  let s := (List.range n).foldl
    (fun s i =>
      if (s.mate.getD i none).isNone then
        { s with
          levels := addToLevel s.levels 0 i
          minLevel := s.minLevel.set i (some 0) }
      else s) s
  (List.range n).foldl
    (fun s i =>
      (s.levels.getD i []).foldl
        (fun s c =>
          if i % 2 = 0 then
            (s.graph.getD c []).foldl
              (fun s nb =>
                if s.mate.getD c none ≠ some nb then stepTo s nb c i else s)
              s
          else
            match s.mate.getD c none with
            | some m => stepTo s m c i
            | none => s) s) s

/-- BFS working state of one `phase_2` start vertex. -/
structure Bfs where
  s : St
  pred : List (Option Nat)
  visited : List Bool
  q : List Nat
  endpoint : Option Nat
deriving Repr, DecidableEq

/-- Neighbor scan of the `phase_2` BFS (`for (int v : graph[u])` with the
`break` on a found endpoint). -/
def scanNbrs (fuel : Nat) (b : Bfs) (start u : Nat) (nbrs : List Nat) :
    Option Bfs :=
  match nbrs with
  | [] => some b
  | v :: rest => do
    let (ba, baseU) ← findBase fuel b.s.base u
    let (ba, baseV) ← findBase fuel ba v
    let b := { b with s := { b.s with base := ba } }
    if baseU = baseV then scanNbrs fuel b start u rest
    else if b.visited.getD baseV false then scanNbrs fuel b start u rest
    else if (b.s.mate.getD v none).isNone ∧ v ≠ start then
      some { b with pred := b.pred.set v (some u), endpoint := some v }
    else do
      let b := { b with
        pred := b.pred.set v (some u)
        visited := b.visited.set baseV true }
      let b ←
        match b.s.mate.getD v none with
        | none => some b
        | some mateV => do
          let (ba, fbmv) ← findBase fuel b.s.base mateV
          let b := { b with s := { b.s with base := ba } }
          if b.visited.getD fbmv false then some b
          else
            some { b with
              pred := b.pred.set mateV (some v)
              visited := b.visited.set fbmv true
              q := b.q ++ [mateV] }
      scanNbrs fuel b start u rest

/-- `while (!q.empty() && endpoint == NIL)` of `phase_2`. -/
def bfsLoop (fuel : Nat) (b : Bfs) (start : Nat) : Option Bfs :=
  match fuel with
  | 0 => none
  | fuel + 1 =>
    match b.q with
    | [] => some b
    | u :: qrest =>
      if b.endpoint.isSome then some b
      else do
        let b := { b with q := qrest }
        let b ← scanNbrs fuel b start u (b.s.graph.getD u [])
        bfsLoop fuel b start

/-- Path reconstruction: `while (curr != NIL) path.push_back(curr);
curr = pred[curr];` then `std::reverse`. -/
def rebuildPath (fuel : Nat) (pred : List (Option Nat)) (curr : Nat)
    (acc : List Nat) : Option (List Nat) :=
  match fuel with
  | 0 => none
  | fuel + 1 =>
    let acc := acc ++ [curr]
    match pred.getD curr none with
    | none => some acc.reverse
    | some p => rebuildPath fuel pred p acc

/-- The augment loop (`for i; i + 1 < size; i += 2` flipping pairs). -/
def augPairs (mate : List (Option Nat)) : List Nat → List (Option Nat)
  | x :: y :: rest => augPairs ((mate.set x (some y)).set y (some x)) rest
  | _ => mate

/-- One `start` iteration of `phase_2` (BFS plus augmentation). -/
def runStart (fuel : Nat) (s : St) (start : Nat) : Option (St × Bool) :=
  if (s.mate.getD start none).isSome then some (s, false)
  else if s.minLevel.getD start none ≠ some 0 then some (s, false)
  else do
    let b : Bfs :=
      { s := s
        pred := List.replicate s.n none
        visited := List.replicate s.n false
        q := [start]
        endpoint := none }
    let (ba, fbs) ← findBase fuel b.s.base start
    let b := { b with
      s := { b.s with base := ba }
      visited := b.visited.set fbs true }
    let b ← bfsLoop fuel b start
    match b.endpoint with
    | none => some (b.s, false)
    | some e => do
      let path ← rebuildPath fuel b.pred e []
      let s := b.s
      let s := { s with
        mate := augPairs s.mate path
        matchnum := s.matchnum + 1 }
      some (s, true)

/-- `MicaliVazirani::phase_2`. -/
def phase2 (fuel : Nat) (s : St) : Option (St × Bool) :=
  (List.range s.n).foldlM
    (fun (acc : St × Bool) start => do
      let (s, f) ← runStart fuel acc.1 start
      pure (s, acc.2 || f))
    (s, false)

/-- `while (true) { phase_1(); if (!phase_2()) break; }`. -/
def mainLoop (fuel : Nat) (s : St) : Option St :=
  match fuel with
  | 0 => none
  | fuel + 1 => do
    let s := phase1 s
    let (s, found) ← phase2 fuel s
    if found then mainLoop fuel s else some s

/-- The result extraction of `MicaliVazirani::maximum_matching`:
`(min(u,v), max(u,v))` under a `seen` filter, then `std::sort`. -/
def extract (s : St) : List (Nat × Nat) :=
  let step := (List.range s.n).foldl
    (fun (acc : List (Nat × Nat) × List Bool) u =>
      match s.mate.getD u none with
      | some v =>
        if ¬ acc.2.getD u false ∧ v < s.n then
          (acc.1 ++ [(min u v, max u v)], (acc.2.set u true).set v true)
        else acc
      | none => acc)
    ([], List.replicate s.n false)
  sortPairs step.1

/-- `MicaliVazirani::maximum_matching`. -/
def maximumMatching (fuel : Nat) (n : Nat) (es : List (Int × Int)) :
    Option (List (Nat × Nat)) := do
  let s ← init n es
  let s ← mainLoop fuel s
  some (extract s)

end MVH

/-! ## Gabow scaling engine (gabow_optimized.cpp)

Shares the no-lower-bound constructor with the hybrid MV engine.  The
embedding mirrors `phase_1` (level/blossom construction, LIFO drain of
`edge_queue[Delta]`), `phase_2` (label-guarded BFS augmentation) and the
`min/max`+`seen` extraction. -/

namespace GO

def EVEN : Nat := 1

def ODD : Nat := 2

structure St where
  n : Nat
  graph : List (List Nat)
  mate : List (Option Nat)
  label : List Nat
  base : List Nat
  parent : List (Option Nat)
  sourceBridge : List (Option Nat)
  targetBridge : List (Option Nat)
  edgeQueue : List (List (Nat × Nat))
  delta : Nat
deriving Repr, DecidableEq

/-- `GabowOptimized::GabowOptimized` — `none` on a negative endpoint
(out-of-bounds `graph[u]`); adjacency sorted, not deduplicated. -/
def init (n : Nat) (es : List (Int × Int)) : Option St := do
  let g ← mvHybridGraph n es
  some { n := n
         graph := g
         mate := List.replicate n none
         label := List.replicate n 0
         base := List.replicate n 0
         parent := List.replicate n none
         sourceBridge := List.replicate n none
         targetBridge := List.replicate n none
         edgeQueue := List.replicate (n + 1) []
         delta := 0 }

/-- `GabowOptimized::find_base` — recursive find with path compression
(same shape as the hybrid engine's). -/
def findBase (fuel : Nat) (base : List Nat) (v : Nat) :
    Option (List Nat × Nat) :=
  match fuel with
  | 0 => none
  | fuel + 1 =>
    let bv := base.getD v 0
    if bv ≠ v then do
      let (b, r) ← findBase fuel base bv
      some (b.set v r, r)
    else some (base, v)

/-- First loop of `find_lca`: mark bases on the path from `u` to its
root. -/
def lcaMark (fuel : Nat) (s : St) (marked : List Bool) (x : Nat) :
    Option (St × List Bool) :=
  match fuel with
  | 0 => none
  | fuel + 1 =>
    let marked := marked.set x true
    match s.mate.getD x none with
    | none => some (s, marked)
    | some mx =>
      match s.parent.getD mx none with
      | none => some (s, marked)
      | some pmx => do
        let (b, x') ← findBase fuel s.base pmx
        lcaMark fuel { s with base := b } marked x'

/-- Second loop of `find_lca`: climb from `v` to the first marked base. -/
def lcaSeek (fuel : Nat) (s : St) (marked : List Bool) (y : Nat) :
    Option (St × Option Nat) :=
  match fuel with
  | 0 => none
  | fuel + 1 =>
    if marked.getD y false then some (s, some y)
    else
      match s.mate.getD y none with
      | none => some (s, none)
      | some my =>
        match s.parent.getD my none with
        | none => some (s, none)
        | some pmy => do
          let (b, y') ← findBase fuel s.base pmy
          lcaSeek fuel { s with base := b } marked y'

/-- `GabowOptimized::find_lca`. -/
def findLca (fuel : Nat) (s : St) (u v : Nat) : Option (St × Option Nat) := do
  let (b, x) ← findBase fuel s.base u
  let s := { s with base := b }
  let (s, marked) ← lcaMark fuel s (List.replicate s.n false) x
  let (b, y) ← findBase fuel s.base v
  let s := { s with base := b }
  lcaSeek fuel s marked y

/-- `GabowOptimized::shrink_path` — direct `base[...] = lca` writes plus
bridge recording, with the mid-loop `break`s on NIL. -/
def shrinkLoop (fuel : Nat) (s : St) (lca x y v : Nat) : Option St :=
  match fuel with
  | 0 => none
  | fuel + 1 =>
    if v = lca then some s
    else
      let s := { s with base := s.base.set v lca }
      match s.mate.getD v none with
      | none => some s
      | some mateV =>
        let s := { s with
          base := s.base.set mateV lca
          sourceBridge := s.sourceBridge.set mateV (some x)
          targetBridge := s.targetBridge.set mateV (some y) }
        match s.parent.getD mateV none with
        | none => some s
        | some pmv => do
          let (b, v') ← findBase fuel s.base pmv
          shrinkLoop fuel { s with base := b } lca x y v'

def shrinkPath (fuel : Nat) (s : St) (lca x y : Nat) : Option St := do
  let (b, v) ← findBase fuel s.base x
  shrinkLoop fuel { s with base := b } lca x y v

/-- `GabowOptimized::scan_edge`. -/
def scanEdge (s : St) (u v : Nat) : St :=
  if s.delta < s.edgeQueue.length then
    { s with edgeQueue :=
        s.edgeQueue.set s.delta (s.edgeQueue.getD s.delta [] ++ [(u, v)]) }
  else s

/-- Drain loop of `phase_1` at the current `Delta`; pops from the back of
`edge_queue[Delta]`.  Returns `some true` in the flag when an augmenting
pair of trees was detected. -/
def drainLoop (fuel : Nat) (s : St) : Option (St × Bool) :=
  match fuel with
  | 0 => none
  | fuel + 1 =>
    let q := s.edgeQueue.getD s.delta []
    match q.getLast? with
    | none => some (s, false)
    | some (x, y) => do
      let s := { s with
        edgeQueue := s.edgeQueue.set s.delta (q.dropLast) }
      let (b, bx) ← findBase fuel s.base x
      let (b, by_) ← findBase fuel b y
      let s := { s with base := b }
      let (x, y, baseX, baseY) :=
        if s.label.getD bx 0 ≠ EVEN then (y, x, by_, bx) else (x, y, bx, by_)
      if baseX = baseY then drainLoop fuel s
      else if s.label.getD baseX 0 ≠ EVEN then drainLoop fuel s
      else if s.mate.getD x none = some y then drainLoop fuel s
      else if s.label.getD baseY 0 = ODD then drainLoop fuel s
      else if s.label.getD baseY 0 = 0 then
        match s.mate.getD y none with
        | none => drainLoop fuel s
        | some z =>
          let s := { s with
            label := (s.label.set y ODD).set z EVEN
            parent := (s.parent.set y (some x)).set z (some y) }
          let s := (s.graph.getD z []).foldl (fun s w => scanEdge s z w) s
          drainLoop fuel s
      else do
        let (s, lca) ← findLca fuel s x y
        match lca with
        | some l => do
          let s ← shrinkPath fuel s l x y
          let s ← shrinkPath fuel s l y x
          drainLoop fuel s
        | none => some (s, true)

/-- `while (Delta <= vertex_count && !found)` of `phase_1`. -/
def deltaLoop (fuel : Nat) (s : St) : Option (St × Bool) :=
  match fuel with
  | 0 => none
  | fuel + 1 =>
    if s.delta > s.n then some (s, false)
    else do
      let (s, found) ← drainLoop fuel s
      if found then some (s, true)
      else deltaLoop fuel { s with delta := s.delta + 1 }

/-- `GabowOptimized::phase_1`. -/
def phase1 (fuel : Nat) (s : St) : Option (St × Bool) :=
  let n := s.n
  let s := { s with
    delta := 0
    edgeQueue := List.replicate (n + 1) []
    base := List.range n
    label := (List.range n).map
      (fun i => if (s.mate.getD i none).isNone then EVEN else 0)
    parent := List.replicate n none
    sourceBridge := List.replicate n none
    targetBridge := List.replicate n none }
  let s := (List.range n).foldl
    (fun s v =>
      if (s.mate.getD v none).isNone then
        (s.graph.getD v []).foldl (fun s u => scanEdge s v u) s
      else s) s
  deltaLoop fuel s

/-- BFS working state of one `phase_2` start vertex (same shape as the
hybrid engine, plus the `label[base_v] != ODD` guard). -/
structure Bfs where
  s : St
  pred : List (Option Nat)
  visited : List Bool
  q : List Nat
  endpoint : Option Nat
deriving Repr, DecidableEq

def scanNbrs (fuel : Nat) (b : Bfs) (start u : Nat) (nbrs : List Nat) :
    Option Bfs :=
  match nbrs with
  | [] => some b
  | v :: rest => do
    let (ba, baseU) ← findBase fuel b.s.base u
    let (ba, baseV) ← findBase fuel ba v
    let b := { b with s := { b.s with base := ba } }
    if baseU = baseV then scanNbrs fuel b start u rest
    else if b.visited.getD baseV false then scanNbrs fuel b start u rest
    else if (b.s.mate.getD v none).isNone ∧ v ≠ start then
      some { b with pred := b.pred.set v (some u), endpoint := some v }
    else if b.s.label.getD baseV 0 = ODD then scanNbrs fuel b start u rest
    else do
      let b := { b with
        pred := b.pred.set v (some u)
        visited := b.visited.set baseV true }
      let b ←
        match b.s.mate.getD v none with
        | none => some b
        | some mateV => do
          let (ba, fbmv) ← findBase fuel b.s.base mateV
          let b := { b with s := { b.s with base := ba } }
          if b.visited.getD fbmv false then some b
          else
            some { b with
              pred := b.pred.set mateV (some v)
              visited := b.visited.set fbmv true
              q := b.q ++ [mateV] }
      scanNbrs fuel b start u rest

def bfsLoop (fuel : Nat) (b : Bfs) (start : Nat) : Option Bfs :=
  match fuel with
  | 0 => none
  | fuel + 1 =>
    match b.q with
    | [] => some b
    | u :: qrest =>
      if b.endpoint.isSome then some b
      else do
        let b := { b with q := qrest }
        let b ← scanNbrs fuel b start u (b.s.graph.getD u [])
        bfsLoop fuel b start

/-- One `start` iteration of `GabowOptimized::phase_2`. -/
def runStart (fuel : Nat) (s : St) (start : Nat) : Option St :=
  if (s.mate.getD start none).isSome ∨ s.label.getD start 0 ≠ EVEN then
    some s
  else do
    let b : Bfs :=
      { s := s
        pred := List.replicate s.n none
        visited := List.replicate s.n false
        q := [start]
        endpoint := none }
    let (ba, fbs) ← findBase fuel b.s.base start
    let b := { b with
      s := { b.s with base := ba }
      visited := b.visited.set fbs true }
    let b ← bfsLoop fuel b start
    match b.endpoint with
    | none => some b.s
    | some e => do
      let path ← MVH.rebuildPath fuel b.pred e []
      some { b.s with mate := MVH.augPairs b.s.mate path }

/-- `GabowOptimized::phase_2`. -/
def phase2 (fuel : Nat) (s : St) : Option St :=
  (List.range s.n).foldlM (fun s start => runStart fuel s start) s

/-- `while (phase_1()) phase_2();`. -/
def mainLoop (fuel : Nat) (s : St) : Option St :=
  match fuel with
  | 0 => none
  | fuel + 1 => do
    let (s, found) ← phase1 fuel s
    if found then do
      let s ← phase2 fuel s
      mainLoop fuel s
    else some s

/-- The result extraction of `GabowOptimized::maximum_matching` —
`min/max` pairs under a `seen` filter (no upper-bound check on `v`,
unlike the hybrid), then `std::sort`. -/
def extract (s : St) : List (Nat × Nat) :=
  let step := (List.range s.n).foldl
    (fun (acc : List (Nat × Nat) × List Bool) u =>
      match s.mate.getD u none with
      | some v =>
        if ¬ acc.2.getD u false then
          (acc.1 ++ [(min u v, max u v)], (acc.2.set u true).set v true)
        else acc
      | none => acc)
    ([], List.replicate s.n false)
  sortPairs step.1

/-- `GabowOptimized::maximum_matching`. -/
def maximumMatching (fuel : Nat) (n : Nat) (es : List (Int × Int)) :
    Option (List (Nat × Nat)) := do
  let s ← init n es
  let s ← mainLoop fuel s
  some (extract s)

end GO

/-! ## Blossom-forest engine (edmonds_blossom_optimized.cpp)

Full forest BFS with blossom contraction, end-of-stage expansion and
augmentation through nested blossoms.  `expandBlossom` is embedded for
`endstage = true` only: `Solver::solve` is its sole caller and always
passes `true`, so the mid-stage T-blossom branch is unreachable in this
program.  C++ `%` on the (possibly negative) cycle index `j` is truncated
division; `cppIdx` embeds the `((j % k) + k) % k` pattern. -/

namespace EBO

/-- `((j % k) + k) % k` with C++ truncated `%` — a proper index in
`[0, k)` for `k > 0`. -/
def cppIdx (j : Int) (k : Nat) : Nat :=
  (((j.tmod k) + k).tmod k).toNat

/-- `Solver::Blos`. -/
structure Blos where
  childs : List Nat
  edges : List (Nat × Nat)
deriving Repr, DecidableEq

/-- State of `struct Solver`.  `labeledge` entries embed `{-1,-1}` as
`none`; `queue` is the BFS worklist, popped from the back. -/
structure St where
  n : Nat
  adj : List (List Nat)
  mate : List (Option Nat)
  blos : List Blos
  nblos : Nat
  inblossom : List Nat
  blossomparent : List (Option Nat)
  blossombase : List (Option Nat)
  label : List Nat
  labeledge : List (Option (Nat × Nat))
  queue : List Nat
deriving Repr, DecidableEq

/-- `Solver::Solver`. -/
def init (n : Nat) (es : List (Int × Int)) : St :=
  { n := n
    adj := gabowGraph n es
    mate := List.replicate n none
    blos := List.replicate n ⟨[], []⟩
    nblos := n
    inblossom := List.range n
    blossomparent := List.replicate n none
    blossombase := (List.range n).map (fun i => some i)
    label := List.replicate n 0
    labeledge := List.replicate n none
    queue := [] }

/-- `Solver::ensure` — extend the per-blossom arrays to cover id `b`. -/
def ensure (s : St) (b : Nat) : St :=
  if b < s.label.length then s
  else
    let k := b + 1 - s.label.length
    { s with
      label := s.label ++ List.replicate k 0
      labeledge := s.labeledge ++ List.replicate (b + 1 - s.labeledge.length) none
      blossomparent :=
        s.blossomparent ++ List.replicate (b + 1 - s.blossomparent.length) none
      blossombase :=
        s.blossombase ++ List.replicate (b + 1 - s.blossombase.length) none }

def isBlossom (s : St) (b : Nat) : Bool := b ≥ s.n

/-- `Solver::leaves` — original vertices below blossom id `b`. -/
def leaves (fuel : Nat) (s : St) (b : Nat) : Option (List Nat) :=
  match fuel with
  | 0 => none
  | fuel + 1 =>
    if b < s.n then some [b]
    else
      (s.blos.getD b ⟨[], []⟩).childs.foldlM
        (fun acc c => do
          let l ← leaves fuel s c
          pure (acc ++ l))
        []

/-- `Solver::assignLabel` (recursive through the T-blossom case). -/
def assignLabel (fuel : Nat) (s : St) (w : Nat) (t : Nat)
    (v : Option Nat) : Option St :=
  match fuel with
  | 0 => none
  | fuel + 1 => do
    let b := s.inblossom.getD w 0
    let s := ensure s b
    let le : Option (Nat × Nat) := v.map (fun vv => (vv, w))
    let s := { s with
      label := (s.label.set b t).set w t
      labeledge := (s.labeledge.set w le).set b le }
    if t = 1 then do
      let lv ← leaves fuel s b
      some { s with queue := s.queue ++ lv }
    else if t = 2 then do
      let base ← s.blossombase.getD b none
      let mb ← s.mate.getD base none
      assignLabel fuel s mb 1 (some base)
    else some s

/-- Loop of `Solver::scanBlossom`; the cursors embed the `-2` sentinel as
`none`.  Returns the state, the detected base (`none` = different trees)
and the breadcrumb path. -/
def scanLoop (fuel : Nat) (s : St) (v w : Option Nat) (path : List Nat) :
    Option (St × Option Nat × List Nat) :=
  match fuel with
  | 0 => none
  | fuel + 1 =>
    match v with
    | none =>
      match w with
      | none => some (s, none, path)
      | some _ => scanLoop fuel s w none path
    | some vv =>
      let b := s.inblossom.getD vv 0
      if s.label.getD b 0 = 5 then do
        let bb ← s.blossombase.getD b none
        some (s, some bb, path)
      else
        let path := path ++ [b]
        let s := { s with label := s.label.set b 5 }
        match s.labeledge.getD b none with
        | none =>
          if w.isSome then scanLoop fuel s w none path
          else scanLoop fuel s none w path
        | some le => do
          let bt := s.inblossom.getD le.1 0
          let le2 ← s.labeledge.getD bt none
          let v' : Option Nat := some le2.1
          if w.isSome then scanLoop fuel s w v' path
          else scanLoop fuel s v' w path

/-- `Solver::scanBlossom` — LCA scan with breadcrumb restore. -/
def scanBlossom (fuel : Nat) (s : St) (v w : Nat) :
    Option (St × Option Nat) := do
  let (s, base, path) ← scanLoop fuel s (some v) (some w) []
  some ({ s with label := path.foldl (fun l b => l.set b 1) s.label }, base)

/-- First trace loop of `Solver::addBlossom` (`while (bv != bb)`). -/
def addTraceV (fuel : Nat) (s : St) (bid bb : Nat) (_v bv : Nat)
    (childs : List Nat) (edges : List (Nat × Nat)) :
    Option (St × List Nat × List (Nat × Nat)) :=
  match fuel with
  | 0 => none
  | fuel + 1 =>
    if bv = bb then some (s, childs, edges)
    else do
      let s := { s with blossomparent := s.blossomparent.set bv (some bid) }
      let le ← s.labeledge.getD bv none
      let v' := le.1
      addTraceV fuel s bid bb v' (s.inblossom.getD v' 0)
        (childs ++ [bv]) (edges ++ [le])

/-- Second trace loop of `Solver::addBlossom` (`while (bw != bb)`,
edges reversed). -/
def addTraceW (fuel : Nat) (s : St) (bid bb : Nat) (_w bw : Nat)
    (childs : List Nat) (edges : List (Nat × Nat)) :
    Option (St × List Nat × List (Nat × Nat)) :=
  match fuel with
  | 0 => none
  | fuel + 1 =>
    if bw = bb then some (s, childs, edges)
    else do
      let s := { s with blossomparent := s.blossomparent.set bw (some bid) }
      let le ← s.labeledge.getD bw none
      let w' := le.1
      addTraceW fuel s bid bb w' (s.inblossom.getD w' 0)
        (childs ++ [bw]) (edges ++ [(le.2, le.1)])

/-- `Solver::addBlossom` — build the blossom cycle, relabel its leaves. -/
def addBlossom (fuel : Nat) (s : St) (base v w : Nat) : Option St := do
  let bb := s.inblossom.getD base 0
  let bv := s.inblossom.getD v 0
  let bw := s.inblossom.getD w 0
  let bid := s.nblos
  let s := { s with nblos := s.nblos + 1 }
  let s :=
    if bid ≥ s.blos.length then { s with blos := s.blos ++ [⟨[], []⟩] }
    else { s with blos := s.blos.set bid ⟨[], []⟩ }
  let s := ensure s bid
  let s := { s with
    blossombase := s.blossombase.set bid (some base)
    blossomparent := (s.blossomparent.set bid none).set bb (some bid) }
  let (s, childs, edges) ← addTraceV fuel s bid bb v bv [] [(v, w)]
  let childs := (childs ++ [bb]).reverse
  let edges := edges.reverse
  let (s, childs, edges) ← addTraceW fuel s bid bb w bw childs edges
  let s := { s with blos := s.blos.set bid ⟨childs, edges⟩ }
  let s := { s with
    label := s.label.set bid 1
    labeledge := s.labeledge.set bid (s.labeledge.getD bb none) }
  let lv ← leaves fuel s bid
  let s := lv.foldl
    (fun s u =>
      let s :=
        if s.label.getD (s.inblossom.getD u 0) 0 = 2 then
          { s with queue := s.queue ++ [u] }
        else s
      { s with inblossom := s.inblossom.set u bid }) s
  some s

/-- `Solver::expandBlossom` with `endstage = true` (the only call mode in
`Solver::solve`): clear parents, restore `inblossom` for vertex children,
recurse into blossom children, then wipe the record. -/
def expandLoop (fuel : Nat) (s : St) (stk : List (Nat × Nat)) : Option St :=
  match fuel with
  | 0 => none
  | fuel + 1 =>
    match stk with
    | [] => some s
    | (b, idx) :: rest =>
      let bl := s.blos.getD b ⟨[], []⟩
      if h : idx < bl.childs.length then
        let c := bl.childs.get ⟨idx, h⟩
        let s := { s with blossomparent := s.blossomparent.set c none }
        if isBlossom s c then
          expandLoop fuel s ((c, 0) :: (b, idx + 1) :: rest)
        else
          expandLoop fuel { s with inblossom := s.inblossom.set c c }
            ((b, idx + 1) :: rest)
      else
        let s := { s with
          label := s.label.set b 0
          blos := s.blos.set b ⟨[], []⟩ }
        expandLoop fuel s rest

def expandBlossom (fuel : Nat) (s : St) (b : Nat) : Option St :=
  expandLoop fuel s [(b, 0)]

/-- Stack frame of `Solver::augmentBlossom`. -/
structure AFrame where
  b : Nat
  v : Nat
  phase : Nat
  i : Nat
  j : Int
  jstep : Int
deriving Repr, DecidableEq

/-- `t = v; while (blossomparent[t] != b) t = blossomparent[t];` -/
def climbToChild (fuel : Nat) (s : St) (b t : Nat) : Option Nat :=
  match fuel with
  | 0 => none
  | fuel + 1 =>
    if s.blossomparent.getD t none = some b then some t
    else do
      let p ← s.blossomparent.getD t none
      climbToChild fuel s b p

/-- The `(ww, xx)` pair read at cycle position `j` (phases 2-4 of
`augmentBlossom`): forward edges for `jstep = 1`, reversed for
`jstep = -1`. -/
def edgeAt (bl : Blos) (j : Int) (jstep : Int) (k : Nat) : Nat × Nat :=
  if jstep = 1 then bl.edges.getD (cppIdx j k) (0, 0)
  else
    let e := bl.edges.getD (cppIdx (j - 1) k) (0, 0)
    (e.2, e.1)

/-- `Solver::augmentBlossom` — iterative augmentation through nested
blossoms, with the phase-2/3/4 fallthrough of the C++ `if` chain. -/
def augBlossomLoop (fuel : Nat) (s : St) (stk : List AFrame) : Option St :=
  match fuel with
  | 0 => none
  | fuel + 1 =>
    match stk with
    | [] => some s
    | f :: rest =>
      if f.phase = 0 then do
        let t ← climbToChild fuel s f.b f.v
        let bl := s.blos.getD f.b ⟨[], []⟩
        let k := bl.childs.length
        let i := (bl.childs.indexOf t)
        if isBlossom s t then
          augBlossomLoop fuel s
            (⟨t, f.v, 0, 0, 0, 0⟩ :: { f with phase := 1, i := i } :: rest)
        else
          let (j, jstep) : Int × Int :=
            if i % 2 = 1 then ((i : Int) - (k : Int), 1) else ((i : Int), -1)
          augBlossomLoop fuel s
            ({ f with phase := 2, i := i, j := j, jstep := jstep } :: rest)
      else if f.phase = 1 then
        let k := (s.blos.getD f.b ⟨[], []⟩).childs.length
        let (j, jstep) : Int × Int :=
          if f.i % 2 = 1 then ((f.i : Int) - (k : Int), 1) else ((f.i : Int), -1)
        augBlossomLoop fuel s
          ({ f with phase := 2, j := j, jstep := jstep } :: rest)
      else
        -- phase 2 with fallthrough into 3 and 4
        let bl := s.blos.getD f.b ⟨[], []⟩
        let k := bl.childs.length
        if f.phase = 2 then
          if f.j = 0 then
            let s :=
              if f.i > 0 then
                let bl2 : Blos :=
                  ⟨bl.childs.drop f.i ++ bl.childs.take f.i,
                   bl.edges.drop f.i ++ bl.edges.take f.i⟩
                { s with blos := s.blos.set f.b bl2 }
              else s
            let s := { s with blossombase := s.blossombase.set f.b (some f.v) }
            augBlossomLoop fuel s rest
          else
            let j := f.j + f.jstep
            let c1 := bl.childs.getD (cppIdx j k) 0
            let (ww, _xx) := edgeAt bl j f.jstep k
            if isBlossom s c1 then
              augBlossomLoop fuel s
                (⟨c1, ww, 0, 0, 0, 0⟩ :: { f with phase := 3, j := j } :: rest)
            else
              augBlossomLoop fuel s ({ f with phase := 3, j := j } :: rest)
        else if f.phase = 3 then
          let (_ww, xx) := edgeAt bl f.j f.jstep k
          let j := f.j + f.jstep
          let c2 := bl.childs.getD (cppIdx j k) 0
          if isBlossom s c2 then
            augBlossomLoop fuel s
              (⟨c2, xx, 0, 0, 0, 0⟩ :: { f with phase := 4, j := j } :: rest)
          else
            augBlossomLoop fuel s ({ f with phase := 4, j := j } :: rest)
        else
          -- phase 4
          let prevJ := f.j - f.jstep
          let (ww, xx) := edgeAt bl prevJ f.jstep k
          let s := { s with
            mate := (s.mate.set ww (some xx)).set xx (some ww) }
          augBlossomLoop fuel s ({ f with phase := 2 } :: rest)

def augmentBlossom (fuel : Nat) (s : St) (b v : Nat) : Option St :=
  augBlossomLoop fuel s [⟨b, v, 0, 0, 0, 0⟩]

/-- Inner `while (true)` of `Solver::augmentMatching`: trace one side
from `sv` (paired with `jv`) back to its root. -/
def augMatchSide (fuel : Nat) (s : St) (sv jv : Nat) : Option St :=
  match fuel with
  | 0 => none
  | fuel + 1 => do
    let bs := s.inblossom.getD sv 0
    let s ← if isBlossom s bs then augmentBlossom fuel s bs sv else some s
    let s := { s with mate := s.mate.set sv (some jv) }
    match s.labeledge.getD bs none with
    | none => some s
    | some le => do
      let t := le.1
      let bt := s.inblossom.getD t 0
      let le2 ← s.labeledge.getD bt none
      let sv' := le2.1
      let jv' := le2.2
      let s ← if isBlossom s bt then augmentBlossom fuel s bt jv' else some s
      let s := { s with mate := s.mate.set jv' (some sv') }
      augMatchSide fuel s sv' jv'

/-- `Solver::augmentMatching` — both sides of the cross-tree edge. -/
def augmentMatching (fuel : Nat) (s : St) (v w : Nat) : Option St := do
  let s ← augMatchSide fuel s v w
  augMatchSide fuel s w v

/-- `Solver::resetBlossoms` — truncate blossom storage, fresh per-stage
arrays (entries `≥ n` of `blossomparent`/`blossombase` stay stale, as in
the C++, and are rewritten by `ensure`/`addBlossom` before any read). -/
def resetBlossoms (s : St) : St :=
  let n := s.n
  { s with
    nblos := n
    blos := s.blos.take n
    inblossom := List.range n
    blossombase :=
      (List.range n).map (fun i => some i) ++ s.blossombase.drop n
    blossomparent := List.replicate n none ++ s.blossomparent.drop n
    label := List.replicate n 0
    labeledge := List.replicate n none
    queue := [] }

/-- Neighbor scan of the `solve` BFS (`for (int w : adj[v])` with the
augmented break). -/
def scanNbrs (fuel : Nat) (s : St) (v : Nat) (nbrs : List Nat) :
    Option (St × Bool) :=
  match nbrs with
  | [] => some (s, false)
  | w :: rest => do
    let bv := s.inblossom.getD v 0
    let bw := s.inblossom.getD w 0
    if bv = bw then scanNbrs fuel s v rest
    else
      let s := ensure s bw
      if s.label.getD bw 0 = 0 then do
        let s ← assignLabel fuel s w 2 (some v)
        scanNbrs fuel s v rest
      else if s.label.getD bw 0 = 1 then do
        let (s, base) ← scanBlossom fuel s v w
        match base with
        | some b => do
          let s ← addBlossom fuel s b v w
          scanNbrs fuel s v rest
        | none => do
          let s ← augmentMatching fuel s v w
          some (s, true)
      else scanNbrs fuel s v rest

/-- The BFS of `Solver::solve`: `v = queue.back(); queue.pop_back();` —
the worklist is consumed from the back (LIFO). -/
def bfsLoop (fuel : Nat) (s : St) : Option (St × Bool) :=
  match fuel with
  | 0 => none
  | fuel + 1 =>
    match s.queue.getLast? with
    | none => some (s, false)
    | some v => do
      let s := { s with queue := s.queue.dropLast }
      if s.label.getD (s.inblossom.getD v 0) 0 ≠ 1 then bfsLoop fuel s
      else do
        let (s, augmented) ← scanNbrs fuel s v (s.adj.getD v [])
        if augmented then some (s, true) else bfsLoop fuel s

/-- A `solve` BFS variant that consumes the worklist from the front —
the FIFO discipline that spec §4.4/§5 claims; used only to compare
against the engine's actual back-pop. -/
def bfsLoopFifo (fuel : Nat) (s : St) : Option (St × Bool) :=
  match fuel with
  | 0 => none
  | fuel + 1 =>
    match s.queue with
    | [] => some (s, false)
    | v :: qrest => do
      let s := { s with queue := qrest }
      if s.label.getD (s.inblossom.getD v 0) 0 ≠ 1 then bfsLoopFifo fuel s
      else do
        let (s, augmented) ← scanNbrs fuel s v (s.adj.getD v [])
        if augmented then some (s, true) else bfsLoopFifo fuel s

/-- One stage of `Solver::solve`, parameterized by the worklist
discipline: reset, label free vertices, BFS, end-of-stage expansion. -/
def stage (bfs : Nat → St → Option (St × Bool)) (fuel : Nat) (s : St) :
    Option (St × Bool) := do
  let s := resetBlossoms s
  let s ← (List.range s.n).foldlM
    (fun s v =>
      if (s.mate.getD v none).isNone ∧
          s.label.getD (s.inblossom.getD v 0) 0 = 0 then
        assignLabel fuel s v 1 none
      else pure s) s
  let (s, augmented) ← bfs fuel s
  let s ← (List.range (s.nblos - s.n)).foldlM
    (fun s i =>
      let b := s.n + i
      if (s.blos.getD b ⟨[], []⟩).childs ≠ [] ∧
          s.blossomparent.getD b none = none then
        expandBlossom fuel s b
      else pure s) s
  some (s, augmented)

/-- `while (true)` stage loop of `Solver::solve`. -/
def stageLoop (bfs : Nat → St → Option (St × Bool)) (fuel : Nat)
    (s : St) : Option St :=
  match fuel with
  | 0 => none
  | fuel + 1 => do
    let (s, augmented) ← stage bfs fuel s
    if augmented then stageLoop bfs fuel s else some s

/-- `Solver::greedy_init`. -/
def greedyInit (s : St) : St :=
  (List.range s.n).foldl
    (fun s u =>
      if (s.mate.getD u none).isSome then s
      else
        match (s.adj.getD u []).find? (fun v => (s.mate.getD v none).isNone) with
        | some v => { s with mate := (s.mate.set u (some v)).set v (some u) }
        | none => s) s

/-- The result extraction of `Solver::solve` (`mate[u] > u`, then
`std::sort`). -/
def extract (s : St) : List (Nat × Nat) :=
  sortPairs ((List.range s.n).filterMap
    (fun u =>
      match s.mate.getD u none with
      | some w => if w > u then some (u, w) else none
      | none => none))

/-- `Solver::solve` (greedy mode 0/1; the `--greedy-md` path mirrors
gabow_simple's and is not needed by any claim). -/
def solve (fuel : Nat) (greedyMode : Nat) (n : Nat)
    (es : List (Int × Int)) : Option (List (Nat × Nat)) := do
  let s := init n es
  let s := if greedyMode = 1 then greedyInit s else s
  let s ← stageLoop bfsLoop fuel s
  some (extract s)

/-- `Solver::solve` under the FIFO worklist discipline claimed by the
spec — identical except for the pop side. -/
def solveFifo (fuel : Nat) (greedyMode : Nat) (n : Nat)
    (es : List (Int × Int)) : Option (List (Nat × Nat)) := do
  let s := init n es
  let s := if greedyMode = 1 then greedyInit s else s
  let s ← stageLoop bfsLoopFifo fuel s
  some (extract s)

end EBO

/-! ## Pure Micali-Vazirani (micali_vazirani_pure.cpp)

Full MV: tenacity-bucketed bridges, DDFS, petals, augmentation through
nested petals.  The C++ flat CSR (`edges`/`adj_start`/`deg`) stores
exactly the per-vertex sorted deduplicated adjacency built first; the
embedding keeps that adjacency as `List (List Nat)`.  DDFS stacks are
embedded with the top at the list head (the C++ uses the vector back). -/

namespace MVP

/-- `struct Node`; `mate` embeds `Node::match`, level fields embed the
`NIL` sentinel as `none`. -/
structure Node where
  preds : List (Option Nat)
  predTo : List (Nat × Nat)
  hangingBridges : List Nat
  minLevel : Option Nat
  maxLevel : Option Nat
  evenLevel : Option Nat
  oddLevel : Option Nat
  mate : Option Nat
  bud : Option Nat
  above : Option Nat
  below : Option Nat
  ddfsGreen : Option Nat
  ddfsRed : Option Nat
  numberPreds : Int
  deleted : Bool
  visited : Bool
deriving Repr, DecidableEq

def Node.initial : Node :=
  { preds := [], predTo := [], hangingBridges := []
    minLevel := none, maxLevel := none, evenLevel := none, oddLevel := none
    mate := none, bud := none, above := none, below := none
    ddfsGreen := none, ddfsRed := none, numberPreds := 0
    deleted := false, visited := false }

/-- `Node::reset` (keeps `match`). -/
def Node.resetKeepMate (nd : Node) : Node :=
  { Node.initial with mate := nd.mate }

/-- `Node::set_min_level`. -/
def Node.setMinLevel (nd : Node) (level : Nat) : Node :=
  if level % 2 = 1 then { nd with minLevel := some level, oddLevel := some level }
  else { nd with minLevel := some level, evenLevel := some level }

/-- `Node::set_max_level`. -/
def Node.setMaxLevel (nd : Node) (level : Nat) : Node :=
  if level % 2 = 1 then { nd with maxLevel := some level, oddLevel := some level }
  else { nd with maxLevel := some level, evenLevel := some level }

/-- `Node::outer`. -/
def Node.outer (nd : Node) : Bool :=
  nd.evenLevel.isSome ∧
    (nd.oddLevel.isNone ∨
      (nd.evenLevel.getD 0 < nd.oddLevel.getD 0))

/-- State of `struct MVGraph`. -/
structure St where
  n : Nat
  graph : List (List Nat)
  nodes : List Node
  levels : List (List Nat)
  bridges : List (List (Nat × Nat))
  pathFound : List Nat
  seenNodes : List Nat
  bottleneck : Option Nat
  matchnum : Nat
  bridgenum : Int
  todonum : Int
deriving Repr, DecidableEq

def getN (s : St) (v : Nat) : Node := s.nodes.getD v Node.initial

def setN (s : St) (v : Nat) (nd : Node) : St :=
  { s with nodes := s.nodes.set v nd }

/-- `MVGraph::build` — same constructor filter/sort/dedup as
gabow_simple. -/
def init (n : Nat) (es : List (Int × Int)) : St :=
  { n := n
    graph := gabowGraph n es
    nodes := List.replicate n Node.initial
    levels := []
    bridges := []
    pathFound := []
    seenNodes := []
    bottleneck := none
    matchnum := 0
    bridgenum := 0
    todonum := 0 }

/-- `MVGraph::add_to_level`. -/
def addToLevel (s : St) (level node : Nat) : St :=
  let ls :=
    if s.levels.length ≤ level then
      s.levels ++ List.replicate (level + 1 - s.levels.length) []
    else s.levels
  { s with
    levels := ls.set level (ls.getD level [] ++ [node])
    todonum := s.todonum + 1 }

/-- `MVGraph::add_to_bridges`. -/
def addToBridges (s : St) (level : Nat) (n1 n2 : Nat) : St :=
  let bs :=
    if s.bridges.length ≤ level then
      s.bridges ++ List.replicate (level + 1 - s.bridges.length) []
    else s.bridges
  { s with
    bridges := bs.set level (bs.getD level [] ++ [(n1, n2)])
    bridgenum := s.bridgenum + 1 }

/-- `MVGraph::tenacity` (`none` = NIL). -/
def tenacity (s : St) (n1 n2 : Nat) : Option Nat :=
  if (getN s n1).mate = some n2 then
    match (getN s n1).oddLevel, (getN s n2).oddLevel with
    | some a, some b => some (a + b + 1)
    | _, _ => none
  else
    match (getN s n1).evenLevel, (getN s n2).evenLevel with
    | some a, some b => some (a + b + 1)
    | _, _ => none

/-- `MVGraph::bud_star`. -/
def budStar (fuel : Nat) (s : St) (c : Nat) : Option Nat :=
  match fuel with
  | 0 => none
  | fuel + 1 =>
    match (getN s c).bud with
    | none => some c
    | some b => budStar fuel s b

/-- `MVGraph::bud_star_includes`. -/
def budStarIncludes (fuel : Nat) (s : St) (c goal : Nat) : Option Bool :=
  match fuel with
  | 0 => none
  | fuel + 1 =>
    if c = goal then some true
    else
      match (getN s c).bud with
      | none => some false
      | some b => budStarIncludes fuel s b goal

/-- `MVGraph::reset`. -/
def reset (s : St) : St :=
  let s := { s with
    levels := s.levels.map (fun _ => [])
    bridges := s.bridges.map (fun _ => [])
    bridgenum := 0
    todonum := 0 }
  (List.range s.n).foldl
    (fun s i =>
      let s := setN s i ((getN s i).resetKeepMate)
      if (getN s i).mate.isNone then
        let s := addToLevel s 0 i
        setN s i ((getN s i).setMinLevel 0)
      else s) s

/-- `MVGraph::step_to`. -/
def stepTo (s : St) (toV fromV level : Nat) : St :=
  let lvl := level + 1
  let tl := (getN s toV).minLevel
  if tl = none ∨ lvl ≤ tl.getD 0 then
    let s :=
      if tl ≠ some lvl then
        let s := addToLevel s lvl toV
        setN s toV ((getN s toV).setMinLevel lvl)
      else s
    let nd := getN s toV
    let s := setN s toV
      { nd with
        preds := nd.preds ++ [some fromV]
        numberPreds := nd.numberPreds + 1 }
    let nf := getN s fromV
    setN s fromV
      { nf with
        predTo := nf.predTo ++ [(toV, (getN s toV).preds.length - 1)] }
  else
    match tenacity s toV fromV with
    | none =>
      let nt := getN s toV
      let s := setN s toV
        { nt with hangingBridges := nt.hangingBridges ++ [fromV] }
      let nf := getN s fromV
      setN s fromV
        { nf with hangingBridges := nf.hangingBridges ++ [toV] }
    | some ten => addToBridges s ((ten - 1) / 2) toV fromV

/-- `MVGraph::MIN`. -/
def MIN (s : St) (i : Nat) : St :=
  if i ≥ s.levels.length then s
  else
    (s.levels.getD i []).foldl
      (fun s current =>
        let s := { s with todonum := s.todonum - 1 }
        if i % 2 = 0 then
          (s.graph.getD current []).foldl
            (fun s e =>
              if (getN s current).mate ≠ some e then stepTo s e current i
              else s) s
        else
          match (getN s current).mate with
          | some m => stepTo s m current i
          | none => s) s

/-- A DDFS cursor pair (`std::pair<int,int>`), both legs embedding `NIL`
as `none`; `(none, none)` is the invalid `{NIL, NIL}` edge. -/
abbrev Cur := Option Nat × Option Nat

/-- `MVGraph::edge_valid`. -/
def edgeValid (e : Cur) : Bool := ¬ (e.1 = none ∧ e.2 = none)

/-- `MVGraph::node_from_stack` (stack top at the list head). -/
def nodeFromStack (S : List Cur) : Cur × List Cur :=
  match S with
  | [] => ((none, none), [])
  | e :: rest => (e, rest)

/-- `MVGraph::prepare_next`. -/
def prepareNext (fuel : Nat) (s : St) (Nx : Cur) : Option (St × Cur) := do
  let s :=
    match Nx.1 with
    | some f => setN s f { getN s f with below := Nx.2 }
    | none => s
  let sec ← Nx.2
  let sec' ← budStar fuel s sec
  pure (s, ((Nx.1 : Option Nat), (some sec' : Option Nat)))

/-- `MVGraph::L` — `nodes[bud_star(e.second)].min_level` as a C++ `int`
(`-1` when unset). -/
def Lf (fuel : Nat) (s : St) (e : Cur) : Option Int := do
  let sec ← e.2
  let b ← budStar fuel s sec
  pure (((getN s b).minLevel.map (fun l => (l : Int))).getD (-1))

/-- `MVGraph::add_pred_to_stack` — C++ pushes the preds in order onto the
vector back; with the head-top representation they are prepended in
reverse. -/
def addPredToStack (s : St) (cur : Nat) (S : List Cur) : List Cur :=
  ((getN s cur).preds.filterMap
    (fun p => p.map (fun pred => (((some cur : Option Nat),
      (some pred : Option Nat)) : Cur)))).reverse ++ S

/-- `MVGraph::step_into` — advance one cursor: mark the landing node if
fresh (recording `above` and the DDFS colors, pushing its preds), then
pop the next pending edge. -/
def stepInto (fuel : Nat) (s : St) (C : Option Nat) (Nx : Cur)
    (S : List Cur) (greenTop redTop : Nat) :
    Option (St × Option Nat × Cur × List Cur) := do
  let (s, Nx) ← prepareNext fuel s Nx
  let sec ← Nx.2
  let (s, C, S) ←
    if ¬ (getN s sec).visited then do
      let nd := getN s sec
      let s := setN s sec
        { nd with
          above := Nx.1
          visited := true
          ddfsGreen := some greenTop
          ddfsRed := some redTop }
      let s := { s with seenNodes := s.seenNodes ++ [sec] }
      pure (s, some sec, addPredToStack s sec S)
    else pure (s, C, S)
  let (Nx, S) := nodeFromStack S
  pure (s, C, Nx, S)

/-- DDFS working state. -/
structure DD where
  s : St
  Sg : List Cur
  Sr : List Cur
  G : Option Nat
  R : Option Nat
  Ng : Cur
  Nr : Cur
  gBefore : Cur
  rBefore : Cur
deriving Repr, DecidableEq

/-- Pred scan of the DDFS stack-exhaustion fixup: set `below[rc]` to the
first pred whose bud chain reaches `tmp`. -/
def fixScan (fuel : Nat) (s : St) (rc tmp : Nat) :
    List (Option Nat) → Option St
  | [] => some s
  | none :: rest => fixScan fuel s rc tmp rest
  | some ri :: rest => do
    let b ← budStar fuel s ri
    if b = tmp then some (setN s rc { getN s rc with below := some ri })
    else fixScan fuel s rc tmp rest

/-- The `tmp` climb of the fixup (`while (nodes[tmp].above != NIL)`). -/
def fixClimb (fuel : Nat) (s : St) (tmp : Nat) : Option St :=
  match fuel with
  | 0 => none
  | fuel + 1 =>
    match (getN s tmp).above with
    | none => some s
    | some rc => do
      let s ← fixScan fuel s rc tmp (getN s rc).preds
      fixClimb fuel s rc

def fixup (fuel : Nat) (s : St) (before : Cur) : Option St := do
  let tmp ← before.1
  fixClimb fuel s tmp

/-- `while (edge_valid(Nr) && L(Nr) > L(Ng))` red descend. -/
def descendR (fuel : Nat) (d : DD) (gt rt : Nat) : Option DD :=
  match fuel with
  | 0 => none
  | fuel + 1 =>
    if edgeValid d.Nr then do
      let lr ← Lf fuel d.s d.Nr
      let lg ← Lf fuel d.s d.Ng
      if lr > lg then do
        let (s, R, Nr, Sr) ← stepInto fuel d.s d.R d.Nr d.Sr gt rt
        descendR fuel { d with s := s, R := R, Nr := Nr, Sr := Sr } gt rt
      else some d
    else some d

/-- `while (edge_valid(Ng) && L(Nr) < L(Ng))` green descend. -/
def descendG (fuel : Nat) (d : DD) (gt rt : Nat) : Option DD :=
  match fuel with
  | 0 => none
  | fuel + 1 =>
    if edgeValid d.Ng then do
      let lr ← Lf fuel d.s d.Nr
      let lg ← Lf fuel d.s d.Ng
      if lr < lg then do
        let (s, G, Ng, Sg) ← stepInto fuel d.s d.G d.Ng d.Sg gt rt
        descendG fuel { d with s := s, G := G, Ng := Ng, Sg := Sg } gt rt
      else some d
    else some d

/-- Inner level-synchronizing loop of `DDFS`
(`while (edge_valid(Nr) && edge_valid(Ng) && L(Nr) != L(Ng))`). -/
def innerLoop (fuel : Nat) (d : DD) (gt rt : Nat) : Option DD :=
  match fuel with
  | 0 => none
  | fuel + 1 =>
    if edgeValid d.Nr ∧ edgeValid d.Ng then do
      let lr ← Lf fuel d.s d.Nr
      let lg ← Lf fuel d.s d.Ng
      if lr ≠ lg then do
        let d ← descendR fuel d gt rt
        let d ←
          if ¬ edgeValid d.Nr then do
            let s ← fixup fuel d.s d.rBefore
            pure { d with s := s, Nr := d.rBefore }
          else pure d
        let d ← descendG fuel d gt rt
        let d ←
          if ¬ edgeValid d.Ng then do
            let s ← fixup fuel d.s d.gBefore
            pure { d with s := s, Ng := d.gBefore }
          else pure d
        innerLoop fuel d gt rt
      else some d
    else some d

/-- `min_level` of the current meeting node as a C++ `int`. -/
def minLevelInt (s : St) (v : Nat) : Int :=
  ((getN s v).minLevel.map (fun l => (l : Int))).getD (-1)

/-- Outer loop of `DDFS`; result code 1 = `DDFS_PETAL`, 2 = `DDFS_PATH`. -/
def outerLoop (fuel : Nat) (d : DD) (gt rt : Nat) : Option (DD × Nat) :=
  match fuel with
  | 0 => none
  | fuel + 1 =>
    let continue_ : Bool :=
      match d.R, d.G with
      | some r, some g =>
        decide (minLevelInt d.s r > 0) || decide (minLevelInt d.s g > 0)
      | _, _ => true
    if ¬ continue_ then some (d, 2)
    else do
      let d ← innerLoop fuel d gt rt
      let nr2 ← d.Nr.2
      let ng2 ← d.Ng.2
      let br ← budStar fuel d.s nr2
      let bg ← budStar fuel d.s ng2
      if br = bg then
        if d.Sr ≠ [] then do
          -- red_before = Nr; prepare_next(Nr) (its cursor result is then
          -- overwritten by the stack pop, only the `below` write lasts)
          let rBefore := d.Nr
          let (s, _) ← prepareNext fuel d.s d.Nr
          let (nrPop, Sr) := nodeFromStack d.Sr
          let d := { d with s := s, rBefore := rBefore, Nr := nrPop, Sr := Sr }
          let d :=
            if edgeValid d.Nr then { d with R := d.Nr.1 }
            else { d with Nr := d.rBefore }
          outerLoop fuel d gt rt
        else if d.Sg ≠ [] then do
          let gBefore := d.Ng
          let (s, _) ← prepareNext fuel d.s d.Ng
          let (ngPop, Sg) := nodeFromStack d.Sg
          let d := { d with s := s, gBefore := gBefore, Ng := ngPop, Sg := Sg }
          let d :=
            if edgeValid d.Ng then { d with G := d.Ng.1 }
            else { d with Ng := d.gBefore }
          outerLoop fuel d gt rt
        else do
          let (s, Nr) ← prepareNext fuel d.s d.Nr
          let (s, Ng) ← prepareNext fuel s d.Ng
          let s := { s with bottleneck := Nr.2 }
          some ({ d with s := s, Nr := Nr, Ng := Ng }, 1)
      else do
        let (s, R, Nr, Sr) ← stepInto fuel d.s d.R d.Nr d.Sr gt rt
        let d := { d with s := s, R := R, Nr := Nr, Sr := Sr }
        let (s, G, Ng, Sg) ← stepInto fuel d.s d.G d.Ng d.Sg gt rt
        let d := { d with s := s, G := G, Ng := Ng, Sg := Sg }
        outerLoop fuel d gt rt

/-- `MVGraph::DDFS`; result 0 = `DDFS_EMPTY`, 1 = `DDFS_PETAL`,
2 = `DDFS_PATH`. -/
def DDFS (fuel : Nat) (s : St) (greenTop redTop : Nat) :
    Option (St × Nat) := do
  let s := { s with seenNodes := [], bottleneck := none }
  let bg ← budStar fuel s greenTop
  let br ← budStar fuel s redTop
  if br = bg then pure (s, 0)
  else if (getN s greenTop).minLevel = some 0 ∧
      (getN s redTop).minLevel = some 0 then pure (s, 2)
  else do
    let d : DD :=
      { s := s, Sg := [], Sr := [], G := none, R := none
        Ng := ((none : Option Nat), (some greenTop : Option Nat))
        Nr := ((none : Option Nat), (some redTop : Option Nat))
        gBefore := ((none : Option Nat), (none : Option Nat))
        rBefore := ((none : Option Nat), (none : Option Nat)) }
    let (d, code) ← outerLoop fuel d greenTop redTop
    pure (d.s, code)

/-- `std::reverse(path_found.begin() + before, path_found.end())`. -/
def revFrom (l : List Nat) (before : Nat) : List Nat :=
  l.take before ++ (l.drop before).reverse

mutual

/-- `MVGraph::walk_down_path`. -/
def walkDownPath (fuel : Nat) (s : St) (cur : Option Nat) : Option St :=
  match fuel with
  | 0 => none
  | fuel + 1 =>
    match cur with
    | none => some s
    | some c =>
      if (getN s c).bud.isSome then do
        let (s, c') ← walkBlossom fuel s c
        walkDownPath fuel s c'
      else
        let s := { s with pathFound := s.pathFound ++ [c] }
        walkDownPath fuel s (getN s c).below

/-- `MVGraph::walk_blossom`. -/
def walkBlossom (fuel : Nat) (s : St) (cur : Nat) :
    Option (St × Option Nat) :=
  match fuel with
  | 0 => none
  | fuel + 1 =>
    if (getN s cur).outer then walkBlossomDown fuel s (some cur) none
    else do
      let (s, c) ← walkBlossomUp fuel s cur
      let before := c
      let (s, c') ← jumpBridge fuel s c
      walkBlossomDown fuel s c' (some before)

/-- `MVGraph::jump_bridge`. -/
def jumpBridge (fuel : Nat) (s : St) (cur : Nat) :
    Option (St × Option Nat) :=
  match fuel with
  | 0 => none
  | fuel + 1 =>
    if (getN s cur).ddfsGreen = some cur then some (s, (getN s cur).ddfsRed)
    else if (getN s cur).ddfsRed = some cur then some (s, (getN s cur).ddfsGreen)
    else do
      let g ← (getN s cur).ddfsGreen
      let inc ← budStarIncludes fuel s g cur
      if inc then do
        let before := s.pathFound.length
        let s ← walkUntil fuel s (some g) cur
        let s := { s with pathFound := revFrom s.pathFound before }
        some (s, (getN s cur).ddfsRed)
      else do
        let r ← (getN s cur).ddfsRed
        let before := s.pathFound.length
        let s ← walkUntil fuel s (some r) cur
        let s := { s with pathFound := revFrom s.pathFound before }
        some (s, (getN s cur).ddfsGreen)

/-- `while (b != cur) b = walk_blossom(b);`. -/
def walkUntil (fuel : Nat) (s : St) (b : Option Nat) (cur : Nat) :
    Option St :=
  match fuel with
  | 0 => none
  | fuel + 1 =>
    match b with
    | none => none
    | some bb =>
      if bb = cur then some s
      else do
        let (s, b') ← walkBlossom fuel s bb
        walkUntil fuel s b' cur

/-- `MVGraph::walk_blossom_down`. -/
def walkBlossomDown (fuel : Nat) (s : St) (cur : Option Nat)
    (beforeArg : Option Nat) : Option (St × Option Nat) :=
  match fuel with
  | 0 => none
  | fuel + 1 => do
    let c0 ← cur
    let before := beforeArg.getD c0
    let b := (getN s c0).bud
    walkBlossomDownLoop fuel s cur b before

/-- The `while (cur != NIL && cur != b)` loop of `walk_blossom_down`. -/
def walkBlossomDownLoop (fuel : Nat) (s : St) (cur : Option Nat)
    (b : Option Nat) (before : Nat) : Option (St × Option Nat) :=
  match fuel with
  | 0 => none
  | fuel + 1 =>
    match cur with
    | none => some (s, none)
    | some c =>
      if cur = b then some (s, cur)
      else
        if (getN s c).ddfsGreen ≠ (getN s before).ddfsGreen ∨
            (getN s c).ddfsRed ≠ (getN s before).ddfsRed then do
          let (s, c') ← walkBlossom fuel s c
          walkBlossomDownLoop fuel s c' b before
        else
          let s := { s with pathFound := s.pathFound ++ [c] }
          walkBlossomDownLoop fuel s (getN s c).below b before

/-- `MVGraph::walk_blossom_up`. -/
def walkBlossomUp (fuel : Nat) (s : St) (cur : Nat) : Option (St × Nat) :=
  match fuel with
  | 0 => none
  | fuel + 1 => do
    let s := { s with pathFound := s.pathFound ++ [cur] }
    match (getN s cur).above with
    | none => some (s, cur)
    | some ab => do
      let b := (getN s ab).below
      let s ←
        if b ≠ some cur then do
          let bb ← b
          let inc ← budStarIncludes fuel s bb cur
          if inc then do
            let before := s.pathFound.length
            let s ← walkUntil fuel s b cur
            pure { s with pathFound := revFrom s.pathFound before }
          else pure s
        else pure s
      walkBlossomUp fuel s ab

end

/-- `MVGraph::find_path`. -/
def findPath (fuel : Nat) (s : St) (n1 n2 : Nat) : Option St := do
  let s := { s with pathFound := [] }
  let s ← walkDownPath fuel s (some n1)
  let s := { s with pathFound := s.pathFound.reverse }
  walkDownPath fuel s (some n2)

/-- The flip loop of `MVGraph::augment_path`. -/
def augFlip (s : St) : List Nat → St
  | x :: y :: rest =>
    let s := setN s x { getN s x with mate := some y }
    let s := setN s y { getN s y with mate := some x }
    augFlip s rest
  | _ => s

/-- `MVGraph::augment_path`. -/
def augmentPath (s : St) : St :=
  let s := augFlip s s.pathFound
  { s with matchnum := s.matchnum + 1 }

/-- `MVGraph::remove_path` — cascade deletion over `pred_to`, reusing
`path_found` as the worklist (popped from the back). -/
def removePath (fuel : Nat) (s : St) : Option St :=
  match fuel with
  | 0 => none
  | fuel + 1 =>
    match s.pathFound.getLast? with
    | none => some s
    | some current =>
      let s := { s with pathFound := s.pathFound.dropLast }
      if (getN s current).deleted then removePath fuel s
      else
        let s := setN s current { getN s current with deleted := true }
        let s := (getN s current).predTo.foldl
          (fun s itt =>
            let nd := getN s itt.1
            if nd.deleted then s
            else
              let nd := { nd with
                preds := nd.preds.set itt.2 none
                numberPreds := nd.numberPreds - 1 }
              let s := setN s itt.1 nd
              if nd.numberPreds ≤ 0 then
                { s with pathFound := s.pathFound ++ [itt.1] }
              else s) s
        removePath fuel s

/-- Petal absorption of `MVGraph::MAX` (the `DDFS_PETAL` branch body). -/
def absorbPetal (_fuel : Nat) (s : St) (b : Nat) (currentTen : Nat) :
    Option St :=
  s.seenNodes.foldlM
    (fun s itt => do
      let ml ← (getN s itt).minLevel
      let maxL := currentTen - ml
      let s := setN s itt { (getN s itt).setMaxLevel maxL with bud := some b }
      let s := addToLevel s maxL itt
      (getN s itt).hangingBridges.foldlM
        (fun s hanging =>
          match tenacity s itt hanging with
          | some ten => pure (addToBridges s ((ten - 1) / 2) itt hanging)
          | none => pure s) s) s

/-- The bridge loop of `MVGraph::MAX` at bucket `i` — the index re-reads
`bridges[i]` each iteration (the petal branch can append to the bucket
being drained). -/
def maxLoop (fuel : Nat) (s : St) (i j : Nat) (found : Bool) :
    Option (St × Bool) :=
  match fuel with
  | 0 => none
  | fuel + 1 =>
    let q := if i < s.bridges.length then s.bridges.getD i [] else []
    if h : j < q.length then
      let (n1, n2) := q.get ⟨j, h⟩
      let s := { s with bridgenum := s.bridgenum - 1 }
      if (getN s n1).deleted ∨ (getN s n2).deleted then
        maxLoop fuel s i (j + 1) found
      else do
        let (s, code) ← DDFS fuel s n1 n2
        if code = 0 then maxLoop fuel s i (j + 1) found
        else if code = 2 then do
          let s ← findPath fuel s n1 n2
          let s := augmentPath s
          if s.n / 2 ≤ s.matchnum then some (s, true)
          else do
            let s ← removePath fuel s
            maxLoop fuel s i (j + 1) true
        else do
          let b ← s.bottleneck
          let s ← absorbPetal fuel s b (i * 2 + 1)
          maxLoop fuel s i (j + 1) found
    else some (s, found)

/-- `MVGraph::MAX`. -/
def MAX (fuel : Nat) (s : St) (i : Nat) : Option (St × Bool) :=
  if i ≥ s.bridges.length then some (s, false)
  else maxLoop fuel s i 0 false

/-- `MVGraph::max_match_phase`. -/
def phaseLoop (fuel : Nat) (s : St) (i : Nat) : Option (St × Bool) :=
  match fuel with
  | 0 => none
  | fuel + 1 =>
    if i ≥ s.n / 2 + 1 then some (s, false)
    else if s.todonum ≤ 0 ∧ s.bridgenum ≤ 0 then some (s, false)
    else do
      let s := MIN s i
      let (s, found) ← MAX fuel s i
      if found then some (s, true) else phaseLoop fuel s (i + 1)

/-- `while (n/2 > matchnum && found) { reset(); found = phase(); }`. -/
def matchLoop (fuel : Nat) (s : St) (found : Bool) : Option St :=
  match fuel with
  | 0 => none
  | fuel + 1 =>
    if s.n / 2 > s.matchnum ∧ found then do
      let s := reset s
      let (s, found) ← phaseLoop fuel s 0
      matchLoop fuel s found
    else some s

/-- `MVGraph::max_match`. -/
def maxMatch (fuel : Nat) (s : St) : Option St := do
  let s := (List.range s.n).foldl
    (fun s i =>
      if (getN s i).mate.isNone then
        let s := addToLevel s 0 i
        setN s i ((getN s i).setMinLevel 0)
      else s) s
  let (s, found) ← phaseLoop fuel s 0
  matchLoop fuel s found

/-- `MVGraph::greedy_init`. -/
def greedyInit (s : St) : St :=
  (List.range s.n).foldl
    (fun s j =>
      if (getN s j).mate.isSome then s
      else
        match (s.graph.getD j []).find? (fun i => (getN s i).mate.isNone) with
        | some i =>
          let s := setN s j { getN s j with mate := some i }
          let s := setN s i { getN s i with mate := some j }
          { s with matchnum := s.matchnum + 1 }
        | none => s) s

/-- The result extraction `MVGraph::get_matching` — ascending scan,
`match > i`, no sort call. -/
def getMatching (s : St) : List (Nat × Nat) :=
  (List.range s.n).filterMap
    (fun i =>
      match (getN s i).mate with
      | some w => if w > i then some (i, w) else none
      | none => none)

/-- The whole engine as `main` drives it (`build`, optional greedy,
`max_match`, `get_matching`). -/
def maximumMatching (fuel : Nat) (greedyMode : Nat) (n : Nat)
    (es : List (Int × Int)) : Option (List (Nat × Nat)) := do
  let s := init n es
  let s := if greedyMode = 1 then greedyInit s else s
  let s ← maxMatch fuel s
  some (getMatching s)

end MVP

/-! ## Hopcroft-Karp (hopcroft_karp.cpp)

The C++ works on string names `"L<i>"`/`"R<j>"` held in unordered
containers; the embedding uses the underlying ids (`u` on the left side,
`v` on the right side — two separate id spaces).  Iteration over the
`left` unordered_set (in `bfs`, the augmentation loop, and the result
extraction) has an implementation-defined order: it is passed in as
`ord`, a permutation of `[0, L)`, fixed for the whole run as in libstdc++.
Adjacency (`graph[u]`) is a vector in raw edge-input order — never
sorted, never deduplicated. -/

namespace HK

structure St where
  lsize : Nat
  rsize : Nat
  graph : List (List Nat)
  pairLeft : List (Option Nat)
  pairRight : List (Option Nat)
  distL : List (Option Nat)
  distNil : Option Nat
deriving Repr, DecidableEq

/-- `HopcroftKarp::HopcroftKarp` — push `edge.second` onto
`graph[edge.first]` in input order when both names exist. -/
def init (lsize rsize : Nat) (es : List (Int × Int)) : St :=
  { lsize := lsize
    rsize := rsize
    graph := es.foldl
      (fun g e =>
        if 0 ≤ e.1 ∧ e.1 < (lsize : Int) ∧ 0 ≤ e.2 ∧ e.2 < (rsize : Int) then
          pushAdj g e.1.toNat e.2.toNat
        else g)
      (List.replicate lsize [])
    pairLeft := List.replicate lsize none
    pairRight := List.replicate rsize none
    distL := List.replicate lsize none
    distNil := none }

/-- `dist[x]` where `x` may be the NIL key. -/
def distOf (s : St) (x : Option Nat) : Option Nat :=
  match x with
  | none => s.distNil
  | some u => s.distL.getD u none

def setDist (s : St) (x : Option Nat) (d : Option Nat) : St :=
  match x with
  | none => { s with distNil := d }
  | some u => { s with distL := s.distL.set u d }

/-- `dist[u] < dist[NIL]` with `none` = `INT32_MAX`. -/
def distLt (a b : Option Nat) : Bool :=
  match a, b with
  | some x, some y => x < y
  | some _, none => true
  | none, _ => false

/-- BFS queue loop of `HopcroftKarp::bfs`. -/
def bfsLoop (fuel : Nat) (s : St) (q : List Nat) : Option St :=
  match fuel with
  | 0 => none
  | fuel + 1 =>
    match q with
    | [] => some s
    | u :: qrest =>
      if distLt (distOf s (some u)) s.distNil then
        let (s, q) := (s.graph.getD u []).foldl
          (fun (acc : St × List Nat) v =>
            let (s, q) := acc
            let pn := s.pairRight.getD v none
            if (distOf s pn).isNone then
              let s := setDist s pn
                ((distOf s (some u)).map (fun d => d + 1))
              match pn with
              | some w => (s, q ++ [w])
              | none => (s, q)
            else (s, q))
          (s, qrest)
        bfsLoop fuel s q
      else bfsLoop fuel s qrest

/-- `HopcroftKarp::bfs`; returns the updated state and
`dist[NIL] != INT32_MAX`. -/
def bfs (fuel : Nat) (s : St) (ord : List Nat) : Option (St × Bool) := do
  let (s, q) := ord.foldl
    (fun (acc : St × List Nat) u =>
      let (s, q) := acc
      if (s.pairLeft.getD u none).isNone then
        (setDist s (some u) (some 0), q ++ [u])
      else (setDist s (some u) none, q))
    (s, [])
  let s := { s with distNil := none }
  let s ← bfsLoop fuel s q
  pure (s, (s.distNil).isSome)

mutual

/-- The neighbor loop of `HopcroftKarp::dfs`. -/
def dfsScan (fuel : Nat) (s : St) (u : Nat) (nbrs : List Nat) :
    Option (St × Bool) :=
  match fuel with
  | 0 => none
  | fuel + 1 =>
    match nbrs with
    | [] =>
      some (setDist s (some u) none, false)
    | v :: rest =>
      let pn := s.pairRight.getD v none
      if distOf s pn = (distOf s (some u)).map (fun d => d + 1) then do
        let (s, ok) ← dfsStep fuel s pn
        if ok then
          some ({ s with
            pairRight := s.pairRight.set v (some u)
            pairLeft := s.pairLeft.set u (some v) }, true)
        else dfsScan fuel s u rest
      else dfsScan fuel s u rest

/-- `HopcroftKarp::dfs` (`u` may be the NIL sentinel). -/
def dfsStep (fuel : Nat) (s : St) (u : Option Nat) : Option (St × Bool) :=
  match fuel with
  | 0 => none
  | fuel + 1 =>
    match u with
    | none => some (s, true)
    | some uu => dfsScan fuel s uu (s.graph.getD uu [])
end

/-- `while (bfs()) { for u in left: if unmatched: dfs(u); }`. -/
def phaseLoop (fuel : Nat) (s : St) (ord : List Nat) : Option St :=
  match fuel with
  | 0 => none
  | fuel + 1 => do
    let (s, more) ← bfs fuel s ord
    if more then do
      let s ← ord.foldlM
        (fun s u =>
          if (s.pairLeft.getD u none).isNone then do
            let (s, _) ← dfsStep fuel s (some u)
            pure s
          else pure s) s
      phaseLoop fuel s ord
    else some s

/-- `HopcroftKarp::maximum_matching` — result pairs `(u, pair_left[u])`
in `left` iteration order; no sort, no `u<v` normalization (the sides
are distinct id spaces). -/
def maximumMatching (fuel : Nat) (lsize rsize : Nat)
    (es : List (Int × Int)) (ord : List Nat) :
    Option (List (Nat × Nat)) := do
  let s ← phaseLoop fuel (init lsize rsize es) ord
  pure (ord.filterMap
    (fun u => (s.pairLeft.getD u none).map (fun v => (u, v))))

end HK

/-! ## Command-line entry points

`main` of each engine, with the file abstracted at the I/O interface:
`none` = `fopen` failed, `some toks` = the whitespace-separated integer
tokens of the file.  `fscanf(f, "%d %d", &n, &m) != 2` is a token stream
shorter than 2.  The result is the exit code paired with the fatal
diagnostic written to stderr (if any); the success path runs the solver
and validator and always returns 0. -/

namespace Cli

/-- `main` of gabow_simple.cpp (lines 374-409). -/
def gabowMain (path : String) (file : Option (List Int)) :
    Nat × Option String :=
  match file with
  | none => (1, some ("Cannot open file: " ++ path))
  | some toks =>
    if toks.length < 2 then (1, some "Bad header") else (0, none)

/-- `main` of micali_vazirani_pure.cpp (lines 599-665) — identical error
skeleton to gabow_simple's. -/
def mvpMain (path : String) (file : Option (List Int)) :
    Nat × Option String :=
  match file with
  | none => (1, some ("Cannot open file: " ++ path))
  | some toks =>
    if toks.length < 2 then (1, some "Bad header") else (0, none)

/-- `main` of edmonds_blossom_optimized.cpp (lines 575-614): the open
failure prints `"Cannot open: <path>"` and the header failure prints
nothing (`{ fclose(f); return 1; }`). -/
def eboMain (path : String) (file : Option (List Int)) :
    Nat × Option String :=
  match file with
  | none => (1, some ("Cannot open: " ++ path))
  | some toks =>
    if toks.length < 2 then (1, none) else (0, none)

end Cli

/-- The "sorted sequence of `(u,v)` pairs with `u<v`" property of spec
§2/P2, for a returned matching. -/
def sortedUVlt (m : List (Nat × Nat)) : Prop :=
  List.Pairwise pairLe m ∧ ∀ p ∈ m, p.1 < p.2

instance (m : List (Nat × Nat)) : Decidable (sortedUVlt m) := by
  unfold sortedUVlt; exact instDecidableAnd

namespace GS

/-- A state with the worklist representation erased (used to compare the
array-cursor queue with an explicit FIFO queue). -/
def stripQ (s : St) : St := { s with queue := [], qhead := 0 }

/-- The BFS of `find_and_augment` reformulated over an explicit FIFO
queue (pop at the head, push at the back) — the spec §4.4 discipline.
`qhead` is unused and the pending entries are exactly
`queue.drop qhead` of the array-cursor formulation. -/
def bfsLoopFifo (fuel : Nat) (s : St) : Option (St × Bool) :=
  match fuel with
  | 0 => none
  | fuel + 1 =>
    match s.queue with
    | [] => some (s, false)
    | u :: qrest => do
      let s := { s with queue := qrest }
      let (b, bu) ← findBase fuel s.base u
      let s := { s with base := b }
      if s.label.getD bu 0 ≠ EVEN then bfsLoopFifo fuel s
      else do
        let (s, augmented) ← scanNeighbors fuel s u (s.graph.getD u [])
        if augmented then some (s, true) else bfsLoopFifo fuel s

/-- `find_and_augment` over the explicit FIFO queue. -/
def findAndAugmentFifo (fuel : Nat) (s : St) : Option (St × Bool) :=
  let n := s.n
  let s := { s with
    base := List.range n
    parent := List.replicate n none
    label := List.replicate n 0
    bridgeSrc := List.replicate n none
    bridgeTgt := List.replicate n none
    queue := []
    qhead := 0 }
  let s := (List.range n).foldl
    (fun s v =>
      if (s.mate.getD v none).isNone then
        { s with label := s.label.set v EVEN, queue := s.queue ++ [v] }
      else s) s
  bfsLoopFifo fuel s

def stageLoopFifo (fuel : Nat) (s : St) : Option St :=
  match fuel with
  | 0 => none
  | fuel + 1 => do
    let (s, augmented) ← findAndAugmentFifo fuel s
    if augmented then stageLoopFifo fuel s else some s

/-- `maximum_matching` over the explicit FIFO queue. -/
def maximumMatchingFifo (fuel : Nat) (greedyMode : Nat) (n : Nat)
    (es : List (Int × Int)) : Option (List (Nat × Nat)) := do
  let s := init n es
  let s := if greedyMode = 1 then greedyInit s
           else if greedyMode = 2 then greedyInitMd s else s
  let s ← stageLoopFifo fuel s
  some (extract s.n s.mate)

end GS

/-- The six-vertex graph on which the engines disagree (claim C2):
`{(0,3),(0,4),(0,5),(1,2),(1,4),(1,5),(2,3)}`; the maximum matching has
3 edges, e.g. `{(0,4),(1,5),(2,3)}`. -/
def g0 : List (Int × Int) := [(0,3),(0,4),(0,5),(1,2),(1,4),(1,5),(2,3)]

/-- The state of the gabow_optimized engine on `g0` after two rounds of
`phase_1`/`phase_2` (mate = `{0-3, 1-2}`). -/
def goG0Star : Option GO.St := do
  let s ← GO.init 6 g0
  let (s, _) ← GO.phase1 150 s
  let s ← GO.phase2 150 s
  let (s, _) ← GO.phase1 150 s
  GO.phase2 150 s

/-- A concrete two-vertex state of the hybrid Micali-Vazirani engine
(the single edge `0-1`, nothing matched yet), used to instantiate the
base-identity invariant on a real run. -/
def mvhW : MVH.St :=
  { n := 2
    graph := [[1], [0]]
    mate := [none, none]
    minLevel := [none, none]
    base := [0, 1]
    levels := []
    matchnum := 0 }

/-!
# Theorems for the claims
-/

set_option maxRecDepth 100000 in
/-- C2: the general-graph engines do not all return matchings of the same
cardinality.  On `g0` GABOW-SIMPLE returns a 3-edge matching while the
hybrid MICALI-VAZIRANI engine stops at 2 edges, and the GABOW-SCALING
driver repeats the reachable state `goG0Star` exactly (`phase_1` keeps
reporting an augmenting path that `phase_2` cannot realize), so its
`while (phase_1()) phase_2();` loop never terminates. -/
theorem c2_engine_disagreement :
    (GS.maximumMatching 40 0 6 g0).map List.length = some 3 ∧
    (MVH.maximumMatching 40 6 g0).map List.length = some 2 ∧
    goG0Star.isSome = true ∧
    (goG0Star.bind (fun s => (GO.phase1 150 s).map Prod.snd)) = some true ∧
    (goG0Star.bind (fun s => (GO.phase1 150 s).bind
      (fun p => GO.phase2 150 p.1))) = goG0Star :=
  ⟨by rfl, by rfl, by rfl, by rfl, by rfl⟩

/-- C6: the claim fails on micali_vazirani.cpp / gabow_optimized.cpp —
a negative endpoint passes their `u < n && v < n && u != v` filter and is
then used as an index (out-of-bounds access, embedded as `none`), and a
duplicate edge stays duplicated in their sorted-only adjacency; the
gabow_simple-style constructors do drop and deduplicate as claimed. -/
theorem c6_constructor_out_of_bounds :
    mvHybridGraph 2 [(-1, 0)] = none ∧
    mvHybridGraph 2 [(0, 1), (0, 1)] = some [[1, 1], [0, 0]] ∧
    gabowGraph 2 [(-1, 0)] = [[], []] ∧
    gabowGraph 2 [(0, 1), (0, 1)] = [[1], [0]] :=
  ⟨by rfl, by rfl, by rfl, by rfl⟩

/-- C5 counterexample: HOPCROFT-KARP on the single edge `(L0, R0)`
returns the pair `(0, 0)`, which is not a `u<v` pair — the claim's
"for every engine ... u<v, sorted" is false.  (`[0]` is the unique
iteration order of the singleton `left` set.) -/
theorem c5_counterexample :
    HK.maximumMatching 100 1 1 [(0, 0)] [0] = some [(0, 0)] ∧
    ¬ sortedUVlt [(0, 0)] :=
  ⟨by rfl, by decide⟩

/-- C7 counterexample: permuting the two edges of the bipartite instance
`L={0}, R={0,1}` (same vertex set, same sorted adjacency) changes the
matching HOPCROFT-KARP returns — its DFS follows raw input order. -/
theorem c7_counterexample :
    HK.maximumMatching 100 1 2 [(0, 0), (0, 1)] [0] = some [(0, 0)] ∧
    HK.maximumMatching 100 1 2 [(0, 1), (0, 0)] [0] = some [(0, 1)] ∧
    List.Perm [((0 : Int), (0 : Int)), (0, 1)] [(0, 1), (0, 0)] ∧
    (HK.init 1 2 [(0, 0), (0, 1)]).graph.map csort =
      (HK.init 1 2 [(0, 1), (0, 0)]).graph.map csort ∧
    HK.maximumMatching 100 1 2 [(0, 0), (0, 1)] [0] ≠
      HK.maximumMatching 100 1 2 [(0, 1), (0, 0)] [0] :=
  ⟨by rfl, by rfl, by decide, by rfl, by decide⟩

/-- C8 counterexample: the BLOSSOM-FOREST worklist is popped from the
back (`queue.back(); queue.pop_back()`), not FIFO.  On the path 0-1-2
the engine returns `[(1,2)]` while the same engine with a FIFO pop (the
discipline the claim asserts) returns `[(0,1)]`. -/
theorem c8_counterexample :
    EBO.solve 60 0 3 [(0, 1), (1, 2)] = some [(1, 2)] ∧
    EBO.solveFifo 60 0 3 [(0, 1), (1, 2)] = some [(0, 1)] ∧
    EBO.solve 60 0 3 [(0, 1), (1, 2)] ≠
      EBO.solveFifo 60 0 3 [(0, 1), (1, 2)] :=
  ⟨by rfl, by rfl, by decide⟩

/-- C9 counterexample: the BLOSSOM-FOREST `main` writes
`"Cannot open: <path>"` (not `"Cannot open file: <path>"`) when the file
cannot be opened, and writes no diagnostic at all on a bad header. -/
theorem c9_counterexample :
    Cli.eboMain "input.txt" none = (1, some "Cannot open: input.txt") ∧
    Cli.eboMain "input.txt" none ≠
      (1, some "Cannot open file: input.txt") ∧
    Cli.eboMain "input.txt" (some []) = (1, none) ∧
    Cli.eboMain "input.txt" (some []) ≠ (1, some "Bad header") :=
  ⟨by rfl, by decide, by rfl, by decide⟩

/-- C9 amended: the gabow_simple and micali_vazirani_pure `main`s behave
exactly as the claim states (diagnostic `"Cannot open file: <path>"` and
exit 1 on open failure, `"Bad header"` and exit 1 on a short header,
exit 0 otherwise); the blossom-forest `main` exits 1 with the diagnostic
`"Cannot open: <path>"` on open failure and with no diagnostic on a bad
header, and exits 0 on success. -/
theorem c9_amended (path : String) (toks : List Int) :
    Cli.gabowMain path none = (1, some ("Cannot open file: " ++ path)) ∧
    Cli.mvpMain path none = (1, some ("Cannot open file: " ++ path)) ∧
    Cli.eboMain path none = (1, some ("Cannot open: " ++ path)) ∧
    (toks.length < 2 →
      Cli.gabowMain path (some toks) = (1, some "Bad header") ∧
      Cli.mvpMain path (some toks) = (1, some "Bad header") ∧
      Cli.eboMain path (some toks) = (1, none)) ∧
    (2 ≤ toks.length →
      Cli.gabowMain path (some toks) = (0, none) ∧
      Cli.mvpMain path (some toks) = (0, none) ∧
      Cli.eboMain path (some toks) = (0, none)) := by
  refine ⟨rfl, rfl, rfl, fun h => ⟨?_, ?_, ?_⟩, fun h => ⟨?_, ?_, ?_⟩⟩ <;>
    simp [Cli.gabowMain, Cli.mvpMain, Cli.eboMain, h, Nat.not_lt.mpr h]

/-- Witness for `c9_amended` at a concrete path and token list. -/
theorem c9_amended_witness :
    ([(0 : Int)].length < 2 ∧
      Cli.gabowMain "g.txt" (some [0]) = (1, some "Bad header")) ∧
    (2 ≤ [(0 : Int), 0].length ∧
      Cli.gabowMain "g.txt" (some [0, 0]) = (0, none)) :=
  ⟨⟨by decide, ((c9_amended "g.txt" [0]).2.2.2.1 (by decide)).1⟩,
   ⟨by decide, ((c9_amended "g.txt" [0, 0]).2.2.2.2 (by decide)).1⟩⟩

/-! ### Sortedness of the result extractions (claim C5) -/

theorem sortPairs_pairwise (l : List (Nat × Nat)) :
    List.Pairwise pairLe (sortPairs l) :=
  List.sorted_insertionSort pairLe l

theorem mem_sortPairs {p : Nat × Nat} {l : List (Nat × Nat)} :
    p ∈ sortPairs l ↔ p ∈ l :=
  (List.perm_insertionSort pairLe l).mem_iff

/-- Elements produced by the `mate[u] > u` filter satisfy `fst < snd`
(`f u` abstracts the per-engine mate lookup). -/
theorem gtFilter_lt {f : Nat → Option Nat} {n : Nat} {p : Nat × Nat}
    (hp : p ∈ (List.range n).filterMap
      (fun u =>
        match f u with
        | some w => if w > u then some (u, w) else none
        | none => none)) :
    p.1 < p.2 := by
  rcases List.mem_filterMap.mp hp with ⟨u, _, hu⟩
  rcases h : f u with _ | w
  · simp [h] at hu
  · simp only [h] at hu
    split_ifs at hu with hw
    cases hu
    exact hw

/-- The `mate[u] > u` filter over ascending `u` is already pairwise
`pairLe` (first components strictly increase). -/
theorem gtFilter_pairwise (f : Nat → Option Nat) (n : Nat) :
    List.Pairwise pairLe ((List.range n).filterMap
      (fun u =>
        match f u with
        | some w => if w > u then some (u, w) else none
        | none => none)) := by
  refine List.Pairwise.filterMap _ ?_ (List.pairwise_lt_range n)
  intro a a' haa b hb b' hb'
  have hb1 : b.1 = a := by
    rcases h : f a with _ | w
    · simp [h] at hb
    · simp only [h] at hb
      split_ifs at hb with hw
      · cases hb; rfl
      · exact Option.noConfusion hb
  have hb'1 : b'.1 = a' := by
    rcases h : f a' with _ | w
    · simp [h] at hb'
    · simp only [h] at hb'
      split_ifs at hb' with hw
      · cases hb'; rfl
      · exact Option.noConfusion hb'
  exact Or.inl (by omega)

theorem gs_extract_sorted (n : Nat) (mate : List (Option Nat)) :
    sortedUVlt (GS.extract n mate) := by
  unfold GS.extract
  exact ⟨sortPairs_pairwise _,
    fun p hp => gtFilter_lt (mem_sortPairs.mp hp)⟩

theorem ebo_extract_sorted (s : EBO.St) : sortedUVlt (EBO.extract s) := by
  unfold EBO.extract
  exact ⟨sortPairs_pairwise _,
    fun p hp => gtFilter_lt (mem_sortPairs.mp hp)⟩

theorem mvp_getMatching_sorted (s : MVP.St) :
    sortedUVlt (MVP.getMatching s) := by
  unfold MVP.getMatching
  exact ⟨gtFilter_pairwise _ _, fun p hp => gtFilter_lt hp⟩

/-- C5 (amended): the BLOSSOM-FOREST, GABOW-SIMPLE and pure
MICALI-VAZIRANI extractions return a sorted sequence of `(u,v)` pairs
with `u<v` for every final mate array; the hybrid-MV and GABOW-SCALING
extractions always return `pairLe`-sorted sequences (their `u<v` relies
on the absence of self-matched vertices); HOPCROFT-KARP and
BLOSSOM-SIMPLE give no such guarantee (see `c5_counterexample`). -/
theorem c5_amended :
    (∀ (n : Nat) (mate : List (Option Nat)), sortedUVlt (GS.extract n mate)) ∧
    (∀ s : EBO.St, sortedUVlt (EBO.extract s)) ∧
    (∀ s : MVP.St, sortedUVlt (MVP.getMatching s)) ∧
    (∀ s : MVH.St, List.Pairwise pairLe (MVH.extract s)) ∧
    (∀ s : GO.St, List.Pairwise pairLe (GO.extract s)) :=
  ⟨gs_extract_sorted, ebo_extract_sorted, mvp_getMatching_sorted,
    fun _ => sortPairs_pairwise _, fun _ => sortPairs_pairwise _⟩

/-! ### Base identity in the hybrid Micali-Vazirani engine (claim C10) -/

theorem foldl_preserve {α β : Type _} {f : α → β → α} {P : α → Prop}
    (h : ∀ a b, P a → P (f a b)) :
    ∀ (l : List β) (a : α), P a → P (l.foldl f a) := by
  intro l
  induction l with
  | nil => exact fun a ha => ha
  | cons x xs ih => exact fun a ha => ih (f a x) (h a x ha)

theorem foldlM_preserve {α β : Type _} {f : α → β → Option α} {P : α → Prop}
    (h : ∀ a x b, P a → f a x = some b → P b) :
    ∀ (l : List β) (a b : α), P a → l.foldlM f a = some b → P b := by
  intro l
  induction l with
  | nil =>
    intro a b ha hf
    cases hf
    exact ha
  | cons x xs ih =>
    intro a b ha hf
    rcases hx : f a x with _ | a'
    · rw [List.foldlM_cons, hx] at hf
      exact Option.noConfusion hf
    · rw [List.foldlM_cons, hx] at hf
      exact ih a' b (h a x a' ha hx) hf

/-- `(List.range n).getD v 0` as a closed form. -/
theorem range_getD (n v : Nat) :
    (List.range n).getD v 0 = if v < n then v else 0 := by
  rcases Nat.lt_or_ge v n with h | h
  · rw [if_pos h, List.getD_eq_getElem?_getD, List.getElem?_range h]
    rfl
  · rw [if_neg (Nat.not_lt.mpr h), List.getD_eq_getElem?_getD,
      List.getElem?_eq_none (by simpa using h)]
    rfl

/-- `MicaliVazirani::find_base` never modifies an identity base array:
with `base = [0,1,...,n-1]` the path-compression writes are no-ops. -/
theorem mvh_findBase_pres :
    ∀ (fuel n v : Nat) (b : List Nat) (r : Nat),
      MVH.findBase fuel (List.range n) v = some (b, r) →
      b = List.range n := by
  intro fuel
  induction fuel with
  | zero => intro n v b r h; exact Option.noConfusion h
  | succ fuel ih =>
    intro n v b r h
    unfold MVH.findBase at h
    rw [range_getD] at h
    by_cases hv : v < n
    · rw [if_pos hv] at h
      simp only [ne_eq, not_true_eq_false, reduceIte] at h
      cases h
      rfl
    · rw [if_neg hv] at h
      by_cases h0 : (0 : Nat) = v
      · rw [← h0] at h
        simp only [ne_eq, not_true_eq_false, reduceIte] at h
        cases h
        rfl
      · simp only [ne_eq, h0, not_false_eq_true, reduceIte] at h
        rcases hrec : MVH.findBase fuel (List.range n) 0 with _ | pr
        · rw [hrec] at h
          exact Option.noConfusion h
        · rw [hrec] at h
          obtain ⟨b2, r2⟩ := pr
          cases h
          rw [ih n 0 b2 r2 hrec]
          exact List.set_eq_of_length_le (by simpa using Nat.not_lt.mp hv)

/-- `find_base` is the identity on in-range vertices when the base array
is the identity. -/
theorem mvh_findBase_id (fuel n v : Nat) (hv : v < n) :
    MVH.findBase (fuel + 1) (List.range n) v = some (List.range n, v) := by
  unfold MVH.findBase
  rw [range_getD, if_pos hv]
  simp

/-- `step_to` touches only `levels`/`minLevel`/`todonum`. -/
theorem mvh_stepTo_base (s : MVH.St) (t f l : Nat) :
    (MVH.stepTo s t f l).base = s.base ∧ (MVH.stepTo s t f l).n = s.n := by
  unfold MVH.stepTo MVH.addToLevel
  refine ⟨?_, ?_⟩ <;> (split <;> (dsimp only; (try split_ifs)) <;> (try rfl))

/-- `phase_1` always leaves `base` as the identity array. -/
theorem mvh_phase1_base (s : MVH.St) :
    (MVH.phase1 s).base = List.range s.n ∧ (MVH.phase1 s).n = s.n := by
  unfold MVH.phase1
  dsimp only
  have hstep : ∀ (a : MVH.St) (c i : Nat),
      (a.base = List.range s.n ∧ a.n = s.n) →
      ((if i % 2 = 0 then
          List.foldl
            (fun s nb => if s.mate.getD c none ≠ some nb then MVH.stepTo s nb c i else s)
            a (a.graph.getD c [])
        else
          match a.mate.getD c none with
          | some m => MVH.stepTo a m c i
          | none => a).base = List.range s.n ∧
        (if i % 2 = 0 then
          List.foldl
            (fun s nb => if s.mate.getD c none ≠ some nb then MVH.stepTo s nb c i else s)
            a (a.graph.getD c [])
        else
          match a.mate.getD c none with
          | some m => MVH.stepTo a m c i
          | none => a).n = s.n) := by
    intro a c i ha
    split
    · refine foldl_preserve
        (P := fun t : MVH.St => t.base = List.range s.n ∧ t.n = s.n) ?_ _ _ ha
      intro a nb ha
      split
      · exact ⟨(mvh_stepTo_base a nb c i).1.trans ha.1,
          (mvh_stepTo_base a nb c i).2.trans ha.2⟩
      · exact ha
    · split
      · exact ⟨(mvh_stepTo_base a _ c i).1.trans ha.1,
          (mvh_stepTo_base a _ c i).2.trans ha.2⟩
      · exact ha
  refine foldl_preserve
    (P := fun t : MVH.St => t.base = List.range s.n ∧ t.n = s.n) ?_ _ _ ?_
  · intro a i ha
    refine foldl_preserve
      (P := fun t : MVH.St => t.base = List.range s.n ∧ t.n = s.n) ?_ _ _ ha
    intro a c ha
    exact hstep a c i ha
  · refine foldl_preserve
      (P := fun t : MVH.St => t.base = List.range s.n ∧ t.n = s.n) ?_ _ _ ?_
    · intro a i ha
      split
      · exact ha
      · exact ha
    · exact ⟨rfl, rfl⟩

/-- The `phase_2` BFS neighbor scan preserves the identity base. -/
theorem mvh_scanNbrs_base (fuel : Nat) :
    ∀ (nbrs : List Nat) (b : MVH.Bfs) (start u : Nat) (b' : MVH.Bfs),
      b.s.base = List.range b.s.n →
      MVH.scanNbrs fuel b start u nbrs = some b' →
      b'.s.base = List.range b'.s.n ∧ b'.s.n = b.s.n := by
  intro nbrs
  induction nbrs with
  | nil =>
    intro b start u b' hb h
    cases h
    exact ⟨hb, rfl⟩
  | cons v rest ih =>
    intro b start u b' hb h
    unfold MVH.scanNbrs at h
    rcases h1 : MVH.findBase fuel b.s.base u with _ | p1
    · rw [h1] at h
      exact Option.noConfusion h
    · rw [h1] at h
      obtain ⟨ba1, bu⟩ := p1
      simp only [Option.bind_eq_bind, Option.some_bind] at h
      have hba1 : ba1 = List.range b.s.n :=
        mvh_findBase_pres fuel b.s.n u ba1 bu (hb ▸ h1)
      rcases h2 : MVH.findBase fuel ba1 v with _ | p2
      · rw [h2] at h
        exact Option.noConfusion h
      · rw [h2] at h
        obtain ⟨ba2, bv⟩ := p2
        simp only [Option.bind_eq_bind, Option.some_bind] at h
        have hba2 : ba2 = List.range b.s.n :=
          mvh_findBase_pres fuel b.s.n v ba2 bv (hba1 ▸ h2)
        by_cases hc1 : bu = bv
        · rw [if_pos hc1] at h
          simpa using ih _ start u b' (by simpa using hba2) h
        · rw [if_neg hc1] at h
          by_cases hc2 : b.visited.getD bv false
          · rw [if_pos hc2] at h
            simpa using ih _ start u b' (by simpa using hba2) h
          · rw [if_neg hc2] at h
            by_cases hc3 : (b.s.mate.getD v none).isNone = true ∧ v ≠ start
            · rw [if_pos hc3] at h
              cases h
              exact ⟨by simpa using hba2, rfl⟩
            · rw [if_neg hc3] at h
              rcases h4 : b.s.mate.getD v none with _ | mateV <;>
                rw [h4] at h <;> dsimp only at h
              · simpa using ih _ start u b' (by simpa using hba2) h
              · rcases h5 : MVH.findBase fuel ba2 mateV with _ | p3 <;>
                  rw [h5] at h
                · exact Option.noConfusion h
                · obtain ⟨ba3, fbmv⟩ := p3
                  simp only [Option.bind_eq_bind, Option.some_bind] at h
                  have hba3 : ba3 = List.range b.s.n :=
                    mvh_findBase_pres fuel b.s.n mateV ba3 fbmv (hba2 ▸ h5)
                  by_cases hc4 : (b.visited.set bv true).getD fbmv false = true
                  · rw [if_pos hc4] at h
                    simpa using ih _ start u b' (by simpa using hba3) h
                  · rw [if_neg hc4] at h
                    simpa using ih _ start u b' (by simpa using hba3) h

/-- The `phase_2` BFS loop preserves the identity base. -/
theorem mvh_bfsLoop_base :
    ∀ (fuel : Nat) (b : MVH.Bfs) (start : Nat) (b' : MVH.Bfs),
      b.s.base = List.range b.s.n →
      MVH.bfsLoop fuel b start = some b' →
      b'.s.base = List.range b'.s.n ∧ b'.s.n = b.s.n := by
  intro fuel
  induction fuel with
  | zero => intro b start b' hb h; exact Option.noConfusion h
  | succ fuel ih =>
    intro b start b' hb h
    unfold MVH.bfsLoop at h
    rcases hq : b.q with _ | ⟨u, qrest⟩ <;> rw [hq] at h <;> dsimp only at h
    · cases h
      exact ⟨hb, rfl⟩
    · by_cases he : b.endpoint.isSome = true
      · rw [if_pos he] at h
        cases h
        exact ⟨hb, rfl⟩
      · rw [if_neg he] at h
        simp only [Option.bind_eq_bind] at h
        rw [Option.bind_eq_some] at h
        obtain ⟨b2, hs, h⟩ := h
        have h2 := mvh_scanNbrs_base fuel _ _ start u b2
          (by dsimp only; exact hb) hs
        have h3 := ih b2 start b' h2.1 h
        exact ⟨h3.1, h3.2.trans (by simpa using h2.2)⟩

/-- One `start` iteration of `phase_2` preserves the identity base
(the augmentation modifies only `mate` and `matchnum`). -/
theorem mvh_runStart_base :
    ∀ (fuel : Nat) (s : MVH.St) (start : Nat) (s' : MVH.St) (f : Bool),
      s.base = List.range s.n →
      MVH.runStart fuel s start = some (s', f) →
      s'.base = List.range s'.n ∧ s'.n = s.n := by
  intro fuel s start s' f hb h
  unfold MVH.runStart at h
  by_cases h1 : (s.mate.getD start none).isSome = true
  · rw [if_pos h1] at h
    cases h
    exact ⟨hb, rfl⟩
  · rw [if_neg h1] at h
    by_cases h2 : s.minLevel.getD start none ≠ some 0
    · rw [if_pos h2] at h
      cases h
      exact ⟨hb, rfl⟩
    · rw [if_neg h2] at h
      try dsimp only at h
      simp only [Option.bind_eq_bind] at h
      rw [Option.bind_eq_some] at h
      obtain ⟨p1, h3, h⟩ := h
      obtain ⟨ba, fbs⟩ := p1
      try dsimp only at h
      have hba : ba = List.range s.n :=
        mvh_findBase_pres fuel s.n start ba fbs (hb ▸ h3)
      rw [Option.bind_eq_some] at h
      obtain ⟨b2, h4, h⟩ := h
      have hb2 := mvh_bfsLoop_base fuel _ start b2 (by simpa using hba) h4
      have hn2 : b2.s.n = s.n := by simpa using hb2.2
      try dsimp only at h
      rcases h6 : b2.endpoint with _ | e <;> rw [h6] at h <;>
        (try dsimp only at h)
      · cases h
        exact ⟨hb2.1, hn2⟩
      · rw [Option.bind_eq_some] at h
        obtain ⟨path, h7, h⟩ := h
        try dsimp only at h
        cases h
        exact ⟨hb2.1, hn2⟩

/-- `phase_2` preserves the identity base. -/
theorem mvh_phase2_base :
    ∀ (fuel : Nat) (s : MVH.St) (s' : MVH.St) (f : Bool),
      s.base = List.range s.n →
      MVH.phase2 fuel s = some (s', f) →
      s'.base = List.range s'.n ∧ s'.n = s.n := by
  intro fuel s s' f hb h
  unfold MVH.phase2 at h
  have := foldlM_preserve
    (P := fun p : MVH.St × Bool => p.1.base = List.range p.1.n ∧ p.1.n = s.n)
    ?_ (List.range s.n) (s, false) (s', f) ⟨hb, rfl⟩ h
  · exact this
  · intro a x b ha hf
    rcases hr : MVH.runStart fuel a.1 x with _ | p
    · rw [hr] at hf
      exact Option.noConfusion hf
    · rw [hr] at hf
      obtain ⟨s2, f2⟩ := p
      simp only [Option.bind_eq_bind, Option.some_bind] at hf
      have h2 := mvh_runStart_base fuel a.1 x s2 f2 ha.1 hr
      cases hf
      exact ⟨h2.1, h2.2.trans ha.2⟩

/-- Every state reached by the hybrid-engine main loop after a completed
phase carries the identity base. -/
theorem mvh_mainLoop_base :
    ∀ (fuel : Nat) (s s' : MVH.St),
      MVH.mainLoop fuel s = some s' →
      s'.base = List.range s'.n := by
  intro fuel
  induction fuel with
  | zero => intro s s' h; exact Option.noConfusion h
  | succ fuel ih =>
    intro s s' h
    unfold MVH.mainLoop at h
    try dsimp only at h
    simp only [Option.bind_eq_bind] at h
    rw [Option.bind_eq_some] at h
    obtain ⟨⟨s2, found⟩, hp, h⟩ := h
    try dsimp only at h
    have h2 := mvh_phase2_base fuel (MVH.phase1 s) s2 found
      (by rw [(mvh_phase1_base s).2]; exact (mvh_phase1_base s).1) hp
    by_cases hf : found = true
    · rw [if_pos hf] at h
      exact ih s2 s' h
    · rw [if_neg hf] at h
      cases h
      exact h2.1

/-- C10: in the hybrid MICALI-VAZIRANI engine the `base` array is the
identity after each `phase_1` reset and stays so at all times: `phase_1`
writes `base = [0..n)`, `phase_2` (the only code between resets) never
unions two bases, `find_base` is the identity map on every vertex, and
the state returned by the whole main loop still carries the identity
base — no blossom is ever contracted. -/
theorem c10_base_identity (fuel : Nat) (s : MVH.St) :
    (MVH.phase1 s).base = List.range s.n ∧
    (∀ s' f, MVH.phase2 fuel (MVH.phase1 s) = some (s', f) →
       s'.base = List.range s'.n ∧ s'.n = s.n) ∧
    (∀ v fuel', v < s.n →
       MVH.findBase (fuel' + 1) (List.range s.n) v =
         some (List.range s.n, v)) ∧
    (∀ s', MVH.mainLoop fuel s = some s' → s'.base = List.range s'.n) := by
  refine ⟨(mvh_phase1_base s).1, ?_, ?_, ?_⟩
  · intro s' f h
    have h2 := mvh_phase2_base fuel (MVH.phase1 s) s' f
      (by rw [(mvh_phase1_base s).2]; exact (mvh_phase1_base s).1) h
    exact ⟨h2.1, h2.2.trans (mvh_phase1_base s).2⟩
  · intro v fuel' hv
    exact mvh_findBase_id fuel' s.n v hv
  · intro s' h
    exact mvh_mainLoop_base fuel s s' h

/-- Witness for C10 on the concrete state `mvhW` (two vertices, one
edge): the invariant instantiated at the actual `phase_2` result, at
vertex 1, and at the actual main-loop result. -/
theorem c10_base_identity_witness :
    (MVH.phase1 mvhW).base = List.range mvhW.n ∧
    ((MVH.phase2 20 (MVH.phase1 mvhW)).getD (MVH.phase1 mvhW, false)).1.base =
      List.range
        ((MVH.phase2 20 (MVH.phase1 mvhW)).getD (MVH.phase1 mvhW, false)).1.n ∧
    MVH.findBase 20 (List.range mvhW.n) 1 = some (List.range mvhW.n, 1) ∧
    ((MVH.mainLoop 20 mvhW).getD mvhW).base =
      List.range ((MVH.mainLoop 20 mvhW).getD mvhW).n := by
  obtain ⟨h1, h2, h3, h4⟩ := c10_base_identity 20 mvhW
  refine ⟨h1, ?_, h3 1 19 (by decide), h4 _ rfl⟩
  exact (h2 ((MVH.phase2 20 (MVH.phase1 mvhW)).getD (MVH.phase1 mvhW, false)).1
    ((MVH.phase2 20 (MVH.phase1 mvhW)).getD (MVH.phase1 mvhW, false)).2 rfl).1

/-! ### Permutation invariance of the sorted-adjacency constructors
(claim C7) -/

theorem pushAdj_length (g : List (List Nat)) (t w : Nat) :
    (pushAdj g t w).length = g.length := by
  simp [pushAdj]

theorem pushAdj_getD (g : List (List Nat)) (t w u : Nat)
    (ht : t < g.length) :
    (pushAdj g t w).getD u [] =
      g.getD u [] ++ (if t = u then [w] else []) := by
  unfold pushAdj
  by_cases h : t = u
  · subst h
    rw [if_pos rfl, List.getD_eq_getElem?_getD, List.getElem?_set_self ht]
    rfl
  · rw [if_neg h, List.append_nil, List.getD_eq_getElem?_getD,
      List.getElem?_set_ne h, ← List.getD_eq_getElem?_getD]

theorem replicate_getD (n u : Nat) :
    (List.replicate n ([] : List Nat)).getD u [] = [] := by
  rw [List.getD_eq_getElem?_getD, List.getElem?_replicate]
  split <;> rfl

theorem rawAdjFold_getD (n u : Nat) :
    ∀ (es : List (Int × Int)) (g : List (List Nat)), g.length = n →
      (es.foldl
        (fun g e =>
          if edgeOkFull n e.1 e.2 then
            pushAdj (pushAdj g e.1.toNat e.2.toNat) e.2.toNat e.1.toNat
          else g) g).getD u [] =
        g.getD u [] ++ es.flatMap (edgeContrib n u) := by
  intro es
  induction es with
  | nil =>
    intro g hg
    simp
  | cons e rest ih =>
    intro g hg
    simp only [List.foldl_cons, List.flatMap_cons]
    by_cases he : edgeOkFull n e.1 e.2
    · have ha : e.1.toNat < n := by
        obtain ⟨h1, h2, h3, h4, h5⟩ := he
        omega
      have hb : e.2.toNat < n := by
        obtain ⟨h1, h2, h3, h4, h5⟩ := he
        omega
      rw [if_pos he,
        ih _ (by rw [pushAdj_length, pushAdj_length]; exact hg),
        pushAdj_getD _ _ _ _ (by rw [pushAdj_length, hg]; exact hb),
        pushAdj_getD _ _ _ _ (by rw [hg]; exact ha)]
      unfold edgeContrib
      rw [if_pos he]
      simp [List.append_assoc]
    · rw [if_neg he, ih g hg]
      unfold edgeContrib
      rw [if_neg he]
      simp

theorem rawAdjFull_getD (n : Nat) (es : List (Int × Int)) (u : Nat) :
    (rawAdjFull n es).getD u [] = es.flatMap (edgeContrib n u) := by
  unfold rawAdjFull
  rw [rawAdjFold_getD n u es _ (by simp), replicate_getD]
  simp

theorem rawAdjFull_length (n : Nat) (es : List (Int × Int)) :
    (rawAdjFull n es).length = n := by
  unfold rawAdjFull
  refine foldl_preserve (P := fun g : List (List Nat) => g.length = n)
    ?_ es _ ?_
  · intro g e hg
    dsimp only
    split
    · rw [pushAdj_length, pushAdj_length]
      exact hg
    · exact hg
  · simp

/-- Two lists that are permutations of each other sort to the same
list. -/
theorem csort_perm_eq {l₁ l₂ : List Nat} (h : l₁.Perm l₂) :
    csort l₁ = csort l₂ := by
  unfold csort
  exact List.eq_of_perm_of_sorted
    ((List.perm_insertionSort _ _).trans
      (h.trans (List.perm_insertionSort _ _).symm))
    (List.sorted_insertionSort _ _) (List.sorted_insertionSort _ _)

theorem getElem_eq_getD (l : List (List Nat)) (i : Nat)
    (hi : i < l.length) : l[i] = l.getD i [] := by
  rw [List.getD_eq_getElem?_getD, List.getElem?_eq_getElem hi]
  rfl

/-- The sorted/deduplicated adjacency structure of the gabow_simple-style
constructors depends only on the multiset of input edges. -/
theorem gabowGraph_perm (n : Nat) {es es' : List (Int × Int)}
    (h : es.Perm es') : gabowGraph n es = gabowGraph n es' := by
  unfold gabowGraph
  refine List.ext_getElem (by simp [rawAdjFull_length]) ?_
  intro i h1 h2
  rw [List.getElem_map, List.getElem_map, getElem_eq_getD, getElem_eq_getD,
    rawAdjFull_getD, rawAdjFull_getD,
    csort_perm_eq (h.flatMap_right (edgeContrib n i))]

/-- C7 (amended): the engines whose constructors sort (and deduplicate)
the adjacency lists — GABOW-SIMPLE, BLOSSOM-FOREST and pure
MICALI-VAZIRANI — return the identical matching when the input edge list
is permuted: their whole run depends on the input only through
`gabowGraph`, which is permutation-invariant.  (Hopcroft-Karp keeps raw
input order and is not permutation-invariant: `c7_counterexample`.) -/
theorem c7_amended (fuel gm n : Nat) (es es' : List (Int × Int))
    (h : es.Perm es') :
    GS.maximumMatching fuel gm n es = GS.maximumMatching fuel gm n es' ∧
    EBO.solve fuel gm n es = EBO.solve fuel gm n es' ∧
    MVP.maximumMatching fuel gm n es = MVP.maximumMatching fuel gm n es' := by
  have hg : gabowGraph n es = gabowGraph n es' := gabowGraph_perm n h
  refine ⟨?_, ?_, ?_⟩
  · unfold GS.maximumMatching
    rw [show GS.init n es = GS.init n es' from by unfold GS.init; rw [hg]]
  · unfold EBO.solve
    rw [show EBO.init n es = EBO.init n es' from by unfold EBO.init; rw [hg]]
  · unfold MVP.maximumMatching
    rw [show MVP.init n es = MVP.init n es' from by unfold MVP.init; rw [hg]]

/-- Witness for C7 (amended) at a concrete permuted pair of edge
lists. -/
theorem c7_amended_witness :
    List.Perm [((0 : Int), (1 : Int)), (1, 2)] [((1 : Int), (2 : Int)), (0, 1)] ∧
    (GS.maximumMatching 10 0 3 [(0, 1), (1, 2)] =
        GS.maximumMatching 10 0 3 [(1, 2), (0, 1)] ∧
      EBO.solve 10 0 3 [(0, 1), (1, 2)] =
        EBO.solve 10 0 3 [(1, 2), (0, 1)] ∧
      MVP.maximumMatching 10 0 3 [(0, 1), (1, 2)] =
        MVP.maximumMatching 10 0 3 [(1, 2), (0, 1)]) :=
  ⟨by decide, c7_amended 10 0 3 _ _ (by decide)⟩

/-! ### The gabow_simple worklist is a FIFO queue (claim C8)

`GS.stripQ` erases the two queue fields.  The lemmas below show that
every helper of `find_and_augment` reads the state only through
`stripQ` and treats the queue write-only (append), which makes the
array-cursor queue observationally a pop-front FIFO. -/

theorem stripQ_fields {s t : GS.St} (h : GS.stripQ s = GS.stripQ t) :
    s.n = t.n ∧ s.graph = t.graph ∧ s.mate = t.mate ∧ s.base = t.base ∧
      s.parent = t.parent ∧ s.label = t.label ∧
      s.bridgeSrc = t.bridgeSrc ∧ s.bridgeTgt = t.bridgeTgt :=
  ⟨(congrArg GS.St.n h : (GS.stripQ s).n = (GS.stripQ t).n),
    (congrArg GS.St.graph h : (GS.stripQ s).graph = (GS.stripQ t).graph),
    (congrArg GS.St.mate h : (GS.stripQ s).mate = (GS.stripQ t).mate),
    (congrArg GS.St.base h : (GS.stripQ s).base = (GS.stripQ t).base),
    (congrArg GS.St.parent h : (GS.stripQ s).parent = (GS.stripQ t).parent),
    (congrArg GS.St.label h : (GS.stripQ s).label = (GS.stripQ t).label),
    (congrArg GS.St.bridgeSrc h :
      (GS.stripQ s).bridgeSrc = (GS.stripQ t).bridgeSrc),
    (congrArg GS.St.bridgeTgt h :
      (GS.stripQ s).bridgeTgt = (GS.stripQ t).bridgeTgt)⟩

theorem lcaClimb_rel {s t : GS.St} (hst : GS.stripQ s = GS.stripQ t)
    (fuel x : Nat) : GS.lcaClimb fuel s x = GS.lcaClimb fuel t x := by
  obtain ⟨-, -, hm, hb, hp, -, -, -⟩ := stripQ_fields hst
  unfold GS.lcaClimb
  simp only [hm, hp, hb]

theorem stripQ_setBase {s t : GS.St} (hst : GS.stripQ s = GS.stripQ t)
    (b : List Nat) :
    GS.stripQ { s with base := b } = GS.stripQ { t with base := b } := by
  obtain ⟨hn, hgr, hm, hb, hp, hl, hbs, hbt⟩ := stripQ_fields hst
  unfold GS.stripQ
  dsimp only
  rw [hn, hgr, hm, hp, hl, hbs, hbt]

theorem lcaLoop_rel :
    ∀ (fuel : Nat) (s t : GS.St) (tag1 tag2 : List Bool) (hx hy : Nat)
      (r : GS.St × Option Nat),
      GS.stripQ s = GS.stripQ t →
      GS.lcaLoop fuel s tag1 tag2 hx hy = some r →
      ∃ r1, GS.lcaLoop fuel t tag1 tag2 hx hy = some (r1, r.2) ∧
        GS.stripQ r.1 = GS.stripQ r1 ∧
        r.1.queue = s.queue ∧ r.1.qhead = s.qhead ∧
        r1.queue = t.queue ∧ r1.qhead = t.qhead := by
  intro fuel
  induction fuel with
  | zero =>
    intro s t tag1 tag2 hx hy r hst h
    exact Option.noConfusion h
  | succ fuel ih =>
    intro s t tag1 tag2 hx hy r hst h
    obtain ⟨hn, hgr, hm, hb, hp, hl, hbs, hbt⟩ := stripQ_fields hst
    unfold GS.lcaLoop at h ⊢
    by_cases c1 : tag1.getD hy false = true
    · rw [if_pos c1] at h ⊢
      cases h
      exact ⟨t, rfl, hst, rfl, rfl, rfl, rfl⟩
    · rw [if_neg c1] at h ⊢
      by_cases c2 : tag2.getD hx false = true
      · rw [if_pos c2] at h ⊢
        cases h
        exact ⟨t, rfl, hst, rfl, rfl, rfl, rfl⟩
      · rw [if_neg c2] at h ⊢
        dsimp only at h ⊢
        by_cases c3 : (s.mate.getD hx none).isNone = true ∧
            (s.mate.getD hy none).isNone = true
        · rw [if_pos c3] at h
          rw [if_pos (show (t.mate.getD hx none).isNone = true ∧
            (t.mate.getD hy none).isNone = true by rw [← hm]; exact c3)]
          cases h
          exact ⟨t, rfl, hst, rfl, rfl, rfl, rfl⟩
        · rw [if_neg c3] at h
          rw [if_neg (show ¬((t.mate.getD hx none).isNone = true ∧
            (t.mate.getD hy none).isNone = true) by rw [← hm]; exact c3)]
          simp only [Option.pure_def, Option.bind_eq_bind] at h ⊢
          by_cases c4 : (s.mate.getD hx none).isNone = true
          · rw [if_pos c4] at h
            rw [if_pos (show (t.mate.getD hx none).isNone = true by
              rw [← hm]; exact c4)]
            simp only [Option.some_bind] at h ⊢
            by_cases c5 : (s.mate.getD hy none).isNone = true
            · rw [if_pos c5] at h
              rw [if_pos (show (t.mate.getD hy none).isNone = true by
                rw [← hm]; exact c5)]
              try simp only [Option.some_bind] at h
              try simp only [Option.some_bind]
              obtain ⟨r1, hrun, hq⟩ := ih s t tag1 tag2 hx hy r hst h
              exact ⟨r1, hrun, hq⟩
            · rw [if_neg c5] at h
              rw [if_neg (show ¬(t.mate.getD hy none).isNone = true by
                rw [← hm]; exact c5)]
              rw [lcaClimb_rel hst.symm fuel hy]
              rcases hc : GS.lcaClimb fuel s hy with _ | p
              · rw [hc] at h
                simp only [Option.none_bind] at h
                exact Option.noConfusion h
              · obtain ⟨b, hy2⟩ := p
                rw [hc] at h
                simp only [Option.some_bind] at h ⊢
                obtain ⟨r1, hrun, hq1, hq2, hq3, hq4, hq5⟩ :=
                  ih _ _ _ _ _ _ r (stripQ_setBase hst b) h
                exact ⟨r1, hrun, hq1, hq2, hq3, hq4, hq5⟩
          · rw [if_neg c4] at h
            rw [if_neg (show ¬(t.mate.getD hx none).isNone = true by
              rw [← hm]; exact c4)]
            rw [lcaClimb_rel hst.symm fuel hx]
            rcases hc : GS.lcaClimb fuel s hx with _ | p
            · rw [hc] at h
              simp only [Option.none_bind] at h
              exact Option.noConfusion h
            · obtain ⟨b, hx2⟩ := p
              rw [hc] at h
              simp only [Option.some_bind] at h ⊢
              by_cases c5 : (s.mate.getD hy none).isNone = true
              · rw [if_pos c5] at h
                rw [if_pos (show (t.mate.getD hy none).isNone = true by
                  rw [← hm]; exact c5)]
                try simp only [Option.some_bind] at h
                try simp only [Option.some_bind]
                obtain ⟨r1, hrun, hq1, hq2, hq3, hq4, hq5⟩ :=
                  ih _ _ _ _ _ _ r (stripQ_setBase hst b) h
                exact ⟨r1, hrun, hq1, hq2, hq3, hq4, hq5⟩
              · rw [if_neg c5] at h
                rw [if_neg (show ¬(t.mate.getD hy none).isNone = true by
                  rw [← hm]; exact c5)]
                rw [lcaClimb_rel (stripQ_setBase hst b).symm fuel hy]
                rcases hc2 : GS.lcaClimb fuel { s with base := b } hy
                    with _ | p2
                · rw [hc2] at h
                  simp only [Option.none_bind] at h
                  exact Option.noConfusion h
                · obtain ⟨b2, hy2⟩ := p2
                  rw [hc2] at h
                  simp only [Option.some_bind] at h ⊢
                  obtain ⟨r1, hrun, hq1, hq2, hq3, hq4, hq5⟩ :=
                    ih _ _ _ _ _ _ r (stripQ_setBase hst b2) h
                  exact ⟨r1, hrun, hq1, hq2, hq3, hq4, hq5⟩



theorem stripQ_setMate {s t : GS.St} (hst : GS.stripQ s = GS.stripQ t)
    (m : List (Option Nat)) :
    GS.stripQ { s with mate := m } = GS.stripQ { t with mate := m } := by
  obtain ⟨hn, hgr, hm, hb, hp, hl, hbs, hbt⟩ := stripQ_fields hst
  unfold GS.stripQ
  dsimp only
  rw [hn, hgr, hb, hp, hl, hbs, hbt]

theorem findLca_rel {s t : GS.St} (hst : GS.stripQ s = GS.stripQ t)
    (fuel u v : Nat) (r : GS.St × Option Nat) :
    GS.findLca fuel s u v = some r →
    ∃ r1, GS.findLca fuel t u v = some (r1, r.2) ∧
      GS.stripQ r.1 = GS.stripQ r1 ∧
      r.1.queue = s.queue ∧ r.1.qhead = s.qhead ∧
      r1.queue = t.queue ∧ r1.qhead = t.qhead := by
  intro h
  obtain ⟨hn, hgr, hm, hb, hp, hl, hbs, hbt⟩ := stripQ_fields hst
  unfold GS.findLca at h ⊢
  rw [← hb]
  rcases h1 : GS.findBase fuel s.base u with _ | p1
  · rw [h1] at h
    simp only [Option.bind_eq_bind, Option.none_bind] at h
    exact Option.noConfusion h
  · obtain ⟨b1, hx⟩ := p1
    rw [h1] at h
    simp only [Option.bind_eq_bind, Option.some_bind] at h ⊢
    rcases h2 : GS.findBase fuel b1 v with _ | p2
    · rw [h2] at h
      simp only [Option.none_bind] at h
      exact Option.noConfusion h
    · obtain ⟨b2, hy⟩ := p2
      rw [h2] at h
      simp only [Option.some_bind] at h ⊢
      rw [show List.replicate t.n false = List.replicate s.n false by
        rw [hn]]
      obtain ⟨r1, hrun, hq1, hq2, hq3, hq4, hq5⟩ :=
        lcaLoop_rel fuel _ _ _ _ _ _ r (stripQ_setBase hst b2) h
      exact ⟨r1, hrun, hq1, hq2, hq3, hq4, hq5⟩

theorem traceLoop_rel {s t : GS.St} (hst : GS.stripQ s = GS.stripQ t) :
    ∀ (fuel : Nat) (stk : List GS.Frame) (pairs : List (Nat × Nat)),
      GS.traceLoop fuel s stk pairs = GS.traceLoop fuel t stk pairs := by
  obtain ⟨hn, hgr, hm, hb, hp, hl, hbs, hbt⟩ := stripQ_fields hst
  intro fuel
  induction fuel with
  | zero => intro stk pairs; rfl
  | succ fuel ih =>
    intro stk pairs
    unfold GS.traceLoop
    rcases stk with _ | ⟨f, rest⟩
    · rfl
    · dsimp only
      simp only [← hm, ← hp, ← hbs, ← hbt]
      by_cases c1 : f.u = some f.v
      · rw [if_pos c1, if_pos c1]
        exact ih rest pairs
      · rw [if_neg c1, if_neg c1]
        by_cases c2 : f.phase = 0
        · rw [if_pos c2, if_pos c2]
          rcases hsb : s.bridgeSrc.getD f.v none with _ | sb
          · dsimp only
            rcases hmv : s.mate.getD f.v none with _ | mv
            · dsimp only
              exact ih rest pairs
            · dsimp only
              rcases hpm : s.parent.getD mv none with _ | pmv
              · rfl
              · dsimp only
                exact ih _ _
          · dsimp only
            rcases hbt2 : s.bridgeTgt.getD f.v none with _ | tb
            · rfl
            · dsimp only
              exact ih _ _
        · rw [if_neg c2, if_neg c2]
          by_cases c3 : f.phase = 1
          · rw [if_pos c3, if_pos c3]
            exact ih _ _
          · rw [if_neg c3, if_neg c3]
            exact ih rest pairs

theorem augmentTwoSides_rel {s t : GS.St} (hst : GS.stripQ s = GS.stripQ t)
    (fuel u v : Nat) (r : GS.St) :
    GS.augmentTwoSides fuel s u v = some r →
    ∃ r1, GS.augmentTwoSides fuel t u v = some r1 ∧
      GS.stripQ r = GS.stripQ r1 ∧
      r.queue = s.queue ∧ r.qhead = s.qhead ∧
      r1.queue = t.queue ∧ r1.qhead = t.qhead := by
  intro h
  obtain ⟨hn, hgr, hm, hb, hp, hl, hbs, hbt⟩ := stripQ_fields hst
  unfold GS.augmentTwoSides GS.tracePath at h ⊢
  dsimp only at h
  simp only [← traceLoop_rel hst, ← hm]
  rcases h1 : GS.traceLoop fuel s [⟨u, none, 0, 0, 0⟩] [(u, v)] with _ | p1
  · rw [h1] at h
    simp only [Option.bind_eq_bind, Option.none_bind] at h
    exact Option.noConfusion h
  · rw [h1] at h
    simp only [Option.bind_eq_bind, Option.some_bind] at h ⊢
    rcases h2 : GS.traceLoop fuel s [⟨v, none, 0, 0, 0⟩] p1 with _ | p2
    · rw [h2] at h
      simp only [Option.none_bind] at h
      exact Option.noConfusion h
    · rw [h2] at h
      simp only [Option.some_bind] at h ⊢
      cases h
      exact ⟨{ t with mate := GS.flipPairs s.mate p2 }, rfl,
        stripQ_setMate hst _, rfl, rfl, rfl, rfl⟩


theorem stripQ_shrinkA {s t : GS.St} (hst : GS.stripQ s = GS.stripQ t)
    (b : List Nat) (mv x y : Nat) (qs qt : List Nat) :
    GS.stripQ { s with
      base := b
      label := s.label.set mv GS.EVEN
      bridgeSrc := s.bridgeSrc.set mv (some x)
      bridgeTgt := s.bridgeTgt.set mv (some y)
      queue := qs } =
    GS.stripQ { t with
      base := b
      label := t.label.set mv GS.EVEN
      bridgeSrc := t.bridgeSrc.set mv (some x)
      bridgeTgt := t.bridgeTgt.set mv (some y)
      queue := qt } := by
  obtain ⟨hn, hgr, hm, hb, hp, hl, hbs, hbt⟩ := stripQ_fields hst
  unfold GS.stripQ
  dsimp only
  simp only [hn, hgr, hm, hb, hp, hl, hbs, hbt]

theorem stripQ_shrinkB {s t : GS.St} (hst : GS.stripQ s = GS.stripQ t)
    (b : List Nat) (mv x y : Nat) :
    GS.stripQ { s with
      base := b
      bridgeSrc := s.bridgeSrc.set mv (some x)
      bridgeTgt := s.bridgeTgt.set mv (some y) } =
    GS.stripQ { t with
      base := b
      bridgeSrc := t.bridgeSrc.set mv (some x)
      bridgeTgt := t.bridgeTgt.set mv (some y) } := by
  obtain ⟨hn, hgr, hm, hb, hp, hl, hbs, hbt⟩ := stripQ_fields hst
  unfold GS.stripQ
  dsimp only
  simp only [hn, hgr, hm, hb, hp, hl, hbs, hbt]

theorem shrinkLoop_rel :
    ∀ (fuel : Nat) (s t : GS.St) (lca x y v : Nat) (r : GS.St),
      GS.stripQ s = GS.stripQ t →
      GS.shrinkLoop fuel s lca x y v = some r →
      ∃ r1 d, GS.shrinkLoop fuel t lca x y v = some r1 ∧
        GS.stripQ r = GS.stripQ r1 ∧
        r.queue = s.queue ++ d ∧ r.qhead = s.qhead ∧
        r1.queue = t.queue ++ d ∧ r1.qhead = t.qhead := by
  intro fuel
  induction fuel with
  | zero =>
    intro s t lca x y v r hst h
    exact Option.noConfusion h
  | succ fuel ih =>
    intro s t lca x y v r hst h
    obtain ⟨hn, hgr, hm, hb, hp, hl, hbs, hbt⟩ := stripQ_fields hst
    unfold GS.shrinkLoop at h ⊢
    by_cases cv : v = lca
    · rw [if_pos cv] at h ⊢
      cases h
      exact ⟨t, [], rfl, hst, by simp, rfl, by simp, rfl⟩
    · rw [if_neg cv] at h ⊢
      rw [show t.mate.getD v none = s.mate.getD v none by rw [hm]]
      rcases hmv : s.mate.getD v none with _ | mv
      · rw [hmv] at h
        simp only [Option.bind_eq_bind, Option.none_bind] at h
        exact Option.noConfusion h
      · rw [hmv] at h
        simp only [Option.bind_eq_bind, Option.some_bind] at h ⊢
        rw [← hb]
        rcases h2 : GS.findBase fuel s.base v with _ | p1
        · rw [h2] at h
          simp only [Option.none_bind] at h
          exact Option.noConfusion h
        · obtain ⟨b1, fv⟩ := p1
          rw [h2] at h
          simp only [Option.some_bind] at h ⊢
          rcases h3 : GS.findBase fuel (b1.set fv lca) mv with _ | p2
          · rw [h3] at h
            simp only [Option.none_bind] at h
            exact Option.noConfusion h
          · obtain ⟨b2, fmv⟩ := p2
            rw [h3] at h
            simp only [Option.some_bind] at h ⊢
            by_cases cl : s.label.getD mv 0 ≠ GS.EVEN
            · rw [if_pos cl] at h
              rw [if_pos (show t.label.getD mv 0 ≠ GS.EVEN by
                rw [← hl]; exact cl)]
              rw [show t.parent.getD mv none = s.parent.getD mv none by
                rw [hp]]
              rcases hpm : s.parent.getD mv none with _ | pmv
              · rw [hpm] at h
                simp only [Option.none_bind] at h
                exact Option.noConfusion h
              · rw [hpm] at h
                simp only [Option.some_bind] at h ⊢
                rcases h4 : GS.findBase fuel
                    ((b2.set fmv lca).set lca lca) pmv with _ | p3
                · rw [h4] at h
                  simp only [Option.none_bind] at h
                  exact Option.noConfusion h
                · obtain ⟨b3, v2⟩ := p3
                  rw [h4] at h
                  simp only [Option.some_bind] at h ⊢
                  obtain ⟨r1, d, hrun, hstr, hq1, hq2, hq3, hq4⟩ :=
                    ih _ _ lca x y v2 r
                      (stripQ_shrinkA hst b3 mv x y (s.queue ++ [mv])
                        (t.queue ++ [mv])) h
                  refine ⟨r1, [mv] ++ d, hrun, hstr, ?_, hq2, ?_, hq4⟩
                  · rw [hq1]
                    simp [List.append_assoc]
                  · rw [hq3]
                    simp [List.append_assoc]
            · rw [if_neg cl] at h
              rw [if_neg (show ¬t.label.getD mv 0 ≠ GS.EVEN by
                rw [← hl]; exact cl)]
              rw [show t.parent.getD mv none = s.parent.getD mv none by
                rw [hp]]
              rcases hpm : s.parent.getD mv none with _ | pmv
              · rw [hpm] at h
                simp only [Option.none_bind] at h
                exact Option.noConfusion h
              · rw [hpm] at h
                simp only [Option.some_bind] at h ⊢
                rcases h4 : GS.findBase fuel
                    ((b2.set fmv lca).set lca lca) pmv with _ | p3
                · rw [h4] at h
                  simp only [Option.none_bind] at h
                  exact Option.noConfusion h
                · obtain ⟨b3, v2⟩ := p3
                  rw [h4] at h
                  simp only [Option.some_bind] at h ⊢
                  obtain ⟨r1, d, hrun, hstr, hq1, hq2, hq3, hq4⟩ :=
                    ih _ _ lca x y v2 r (stripQ_shrinkB hst b3 mv x y) h
                  exact ⟨r1, d, hrun, hstr, hq1, hq2, hq3, hq4⟩

theorem shrinkPath_rel {s t : GS.St} (hst : GS.stripQ s = GS.stripQ t)
    (fuel lca x y : Nat) (r : GS.St) :
    GS.shrinkPath fuel s lca x y = some r →
    ∃ r1 d, GS.shrinkPath fuel t lca x y = some r1 ∧
      GS.stripQ r = GS.stripQ r1 ∧
      r.queue = s.queue ++ d ∧ r.qhead = s.qhead ∧
      r1.queue = t.queue ++ d ∧ r1.qhead = t.qhead := by
  intro h
  obtain ⟨hn, hgr, hm, hb, hp, hl, hbs, hbt⟩ := stripQ_fields hst
  unfold GS.shrinkPath at h ⊢
  rw [← hb]
  rcases h1 : GS.findBase fuel s.base x with _ | p1
  · rw [h1] at h
    simp only [Option.bind_eq_bind, Option.none_bind] at h
    exact Option.noConfusion h
  · obtain ⟨b1, v⟩ := p1
    rw [h1] at h
    simp only [Option.bind_eq_bind, Option.some_bind] at h ⊢
    obtain ⟨r1, d, hrun, hstr, hq1, hq2, hq3, hq4⟩ :=
      shrinkLoop_rel fuel _ _ lca x y v r (stripQ_setBase hst b1) h
    exact ⟨r1, d, hrun, hstr, hq1, hq2, hq3, hq4⟩


theorem stripQ_scanC {s t : GS.St} (hst : GS.stripQ s = GS.stripQ t)
    (b : List Nat) (v w u : Nat) (qs qt : List Nat) :
    GS.stripQ { s with
      base := b
      label := (s.label.set v GS.ODD).set w GS.EVEN
      parent := s.parent.set v (some u)
      queue := qs } =
    GS.stripQ { t with
      base := b
      label := (t.label.set v GS.ODD).set w GS.EVEN
      parent := t.parent.set v (some u)
      queue := qt } := by
  obtain ⟨hn, hgr, hm, hb, hp, hl, hbs, hbt⟩ := stripQ_fields hst
  unfold GS.stripQ
  dsimp only
  simp only [hn, hgr, hm, hb, hp, hl, hbs, hbt]

theorem scanNeighbors_rel :
    ∀ (nbrs : List Nat) (fuel : Nat) (s t : GS.St) (u : Nat)
      (r : GS.St × Bool),
      GS.stripQ s = GS.stripQ t →
      GS.scanNeighbors fuel s u nbrs = some r →
      ∃ r1 d, GS.scanNeighbors fuel t u nbrs = some (r1, r.2) ∧
        GS.stripQ r.1 = GS.stripQ r1 ∧
        r.1.queue = s.queue ++ d ∧ r.1.qhead = s.qhead ∧
        r1.queue = t.queue ++ d ∧ r1.qhead = t.qhead := by
  intro nbrs
  induction nbrs with
  | nil =>
    intro fuel s t u r hst h
    cases h
    exact ⟨t, [], rfl, hst, by simp, rfl, by simp, rfl⟩
  | cons v rest ih =>
    intro fuel s t u r hst h
    obtain ⟨hn, hgr, hm, hb, hp, hl, hbs, hbt⟩ := stripQ_fields hst
    unfold GS.scanNeighbors at h ⊢
    rw [← hb]
    rcases h1 : GS.findBase fuel s.base u with _ | p1
    · rw [h1] at h
      simp only [Option.bind_eq_bind, Option.none_bind] at h
      exact Option.noConfusion h
    · obtain ⟨b1, bu⟩ := p1
      rw [h1] at h
      simp only [Option.bind_eq_bind, Option.some_bind] at h ⊢
      rcases h2 : GS.findBase fuel b1 v with _ | p2
      · rw [h2] at h
        simp only [Option.none_bind] at h
        exact Option.noConfusion h
      · obtain ⟨b2, bv⟩ := p2
        rw [h2] at h
        simp only [Option.some_bind] at h ⊢
        by_cases c1 : bu = bv
        · rw [if_pos c1] at h ⊢
          obtain ⟨r1, d, hrun, hstr, hq1, hq2, hq3, hq4⟩ :=
            ih fuel _ _ u r (stripQ_setBase hst b2) h
          exact ⟨r1, d, hrun, hstr, hq1, hq2, hq3, hq4⟩
        · rw [if_neg c1] at h ⊢
          by_cases c2 : s.mate.getD u none = some v
          · rw [if_pos c2] at h
            rw [if_pos (show t.mate.getD u none = some v by
              rw [← hm]; exact c2)]
            obtain ⟨r1, d, hrun, hstr, hq1, hq2, hq3, hq4⟩ :=
              ih fuel _ _ u r (stripQ_setBase hst b2) h
            exact ⟨r1, d, hrun, hstr, hq1, hq2, hq3, hq4⟩
          · rw [if_neg c2] at h
            rw [if_neg (show ¬t.mate.getD u none = some v by
              rw [← hm]; exact c2)]
            by_cases c3 : s.label.getD bv 0 = 0
            · rw [if_pos c3] at h
              rw [if_pos (show t.label.getD bv 0 = 0 by rw [← hl]; exact c3)]
              rw [show t.mate.getD v none = s.mate.getD v none by rw [hm]]
              rcases hw : s.mate.getD v none with _ | w
              · rw [hw] at h
                simp only [Option.none_bind] at h
                exact Option.noConfusion h
              · rw [hw] at h
                simp only [Option.some_bind] at h ⊢
                obtain ⟨r1, d, hrun, hstr, hq1, hq2, hq3, hq4⟩ :=
                  ih fuel _ _ u r
                    (stripQ_scanC hst b2 v w u (s.queue ++ [w])
                      (t.queue ++ [w])) h
                refine ⟨r1, [w] ++ d, hrun, hstr, ?_, hq2, ?_, hq4⟩
                · rw [hq1]
                  simp [List.append_assoc]
                · rw [hq3]
                  simp [List.append_assoc]
            · rw [if_neg c3] at h
              rw [if_neg (show ¬t.label.getD bv 0 = 0 by rw [← hl]; exact c3)]
              by_cases c4 : s.label.getD bv 0 = GS.EVEN
              · rw [if_pos c4] at h
                rw [if_pos (show t.label.getD bv 0 = GS.EVEN by
                  rw [← hl]; exact c4)]
                rcases hlca : GS.findLca fuel { s with base := b2 } u v
                    with _ | pl
                · rw [hlca] at h
                  simp only [Option.none_bind] at h
                  exact Option.noConfusion h
                · obtain ⟨sL, lca⟩ := pl
                  rw [hlca] at h
                  obtain ⟨tL, hrunL, hstrL, hqL1, hqL2, hqL3, hqL4⟩ :=
                    findLca_rel (stripQ_setBase hst b2) fuel u v (sL, lca) hlca
                  rw [hrunL]
                  simp only [Option.some_bind] at h ⊢
                  rcases lca with _ | l
                  · try dsimp only at h ⊢
                    rcases hA : GS.augmentTwoSides fuel sL u v with _ | sA
                    · rw [hA] at h
                      simp only [Option.bind_eq_bind, Option.none_bind] at h
                      exact Option.noConfusion h
                    · rw [hA] at h
                      obtain ⟨tA, hrunA, hstrA, hqA1, hqA2, hqA3, hqA4⟩ :=
                        augmentTwoSides_rel hstrL fuel u v sA hA
                      rw [hrunA]
                      simp only [Option.bind_eq_bind, Option.some_bind] at h ⊢
                      cases h
                      refine ⟨tA, [], rfl, hstrA, ?_, ?_, ?_, ?_⟩
                      · rw [hqA1, hqL1]
                        simp
                      · rw [hqA2, hqL2]
                      · rw [hqA3, hqL3]
                        simp
                      · rw [hqA4, hqL4]
                  · try dsimp only at h ⊢
                    rcases hS1 : GS.shrinkPath fuel sL l u v with _ | s4
                    · rw [hS1] at h
                      simp only [Option.bind_eq_bind, Option.none_bind] at h
                      exact Option.noConfusion h
                    · rw [hS1] at h
                      obtain ⟨t4, d1, hrunS1, hstrS1, hqS1a, hqS1b, hqS1c,
                        hqS1d⟩ := shrinkPath_rel hstrL fuel l u v s4 hS1
                      rw [hrunS1]
                      simp only [Option.bind_eq_bind, Option.some_bind] at h ⊢
                      rcases hS2 : GS.shrinkPath fuel s4 l v u with _ | s5
                      · rw [hS2] at h
                        simp only [Option.none_bind] at h
                        exact Option.noConfusion h
                      · rw [hS2] at h
                        obtain ⟨t5, d2, hrunS2, hstrS2, hqS2a, hqS2b, hqS2c,
                          hqS2d⟩ := shrinkPath_rel hstrS1 fuel l v u s5 hS2
                        rw [hrunS2]
                        simp only [Option.some_bind] at h ⊢
                        obtain ⟨r1, d3, hrun, hstr, hq1, hq2, hq3, hq4⟩ :=
                          ih fuel s5 t5 u r hstrS2 h
                        refine ⟨r1, d1 ++ (d2 ++ d3), hrun, hstr,
                          ?_, ?_, ?_, ?_⟩
                        · rw [hq1, hqS2a, hqS1a, hqL1]
                          simp [List.append_assoc]
                        · rw [hq2, hqS2b, hqS1b, hqL2]
                        · rw [hq3, hqS2c, hqS1c, hqL3]
                          simp [List.append_assoc]
                        · rw [hq4, hqS2d, hqS1d, hqL4]
              · rw [if_neg c4] at h
                rw [if_neg (show ¬t.label.getD bv 0 = GS.EVEN by
                  rw [← hl]; exact c4)]
                obtain ⟨r1, d, hrun, hstr, hq1, hq2, hq3, hq4⟩ :=
                  ih fuel _ _ u r (stripQ_setBase hst b2) h
                exact ⟨r1, d, hrun, hstr, hq1, hq2, hq3, hq4⟩


theorem bfsLoop_fifo_eq :
    ∀ (fuel : Nat) (s t : GS.St),
      GS.stripQ s = GS.stripQ t →
      s.queue.drop s.qhead = t.queue →
      Option.map (fun p : GS.St × Bool => (GS.stripQ p.1, p.2))
        (GS.bfsLoop fuel s) =
      Option.map (fun p : GS.St × Bool => (GS.stripQ p.1, p.2))
        (GS.bfsLoopFifo fuel t) := by
  intro fuel
  induction fuel with
  | zero =>
    intro s t hst hq
    rfl
  | succ fuel ih =>
    intro s t hst hq
    obtain ⟨hn, hgr, hm, hb, hp, hl, hbs, hbt⟩ := stripQ_fields hst
    unfold GS.bfsLoop GS.bfsLoopFifo
    rcases hu : s.queue.get? s.qhead with _ | u
    · have hte : t.queue = [] := by
        rw [← hq]
        exact List.drop_eq_nil_of_le (List.get?_eq_none.mp hu)
      rw [hte]
      dsimp only
      dsimp only [Option.map]
      rw [hst]
    · have hlt : s.qhead < s.queue.length := by
        rcases Nat.lt_or_ge s.qhead s.queue.length with hlt | hge
        · exact hlt
        · rw [List.get?_eq_none.mpr hge] at hu
          exact Option.noConfusion hu
      have hgu : s.queue[s.qhead]? = some u := by
        rw [← List.get?_eq_getElem?]
        exact hu
      have hgu2 : s.queue[s.qhead] = u := by
        have h3 := List.getElem?_eq_getElem hlt
        rw [hgu] at h3
        exact (Option.some.inj h3).symm
      have hdrop : s.queue.drop s.qhead = u :: s.queue.drop (s.qhead + 1) := by
        rw [List.drop_eq_getElem_cons hlt, hgu2]
      have htq : t.queue = u :: s.queue.drop (s.qhead + 1) := by
        rw [← hq, hdrop]
      rw [htq]
      dsimp only
      rw [← hb]
      rcases hfb : GS.findBase fuel s.base u with _ | pb
      · simp
      · obtain ⟨b, bu⟩ := pb
        simp only [Option.bind_eq_bind, Option.some_bind]
        by_cases cl : s.label.getD bu 0 ≠ GS.EVEN
        · rw [if_pos cl,
            if_pos (show t.label.getD bu 0 ≠ GS.EVEN by rw [← hl]; exact cl)]
          refine ih _ { t with base := b, queue := s.queue.drop (s.qhead + 1) }
            ?_ ?_
          · unfold GS.stripQ
            dsimp only
            simp only [hn, hgr, hm, hp, hl, hbs, hbt]
          · dsimp only
        · rw [if_neg cl,
            if_neg (show ¬t.label.getD bu 0 ≠ GS.EVEN by
              rw [← hl]; exact cl)]
          rw [show t.graph.getD u [] = s.graph.getD u [] by rw [hgr]]
          have hstep : GS.stripQ { s with base := b, qhead := s.qhead + 1 } =
              GS.stripQ
                { t with base := b, queue := s.queue.drop (s.qhead + 1) } := by
            unfold GS.stripQ
            dsimp only
            simp only [hn, hgr, hm, hp, hl, hbs, hbt]
          rcases hsc : GS.scanNeighbors fuel
              { s with base := b, qhead := s.qhead + 1 } u
              (s.graph.getD u []) with _ | p
          · rcases hscT : GS.scanNeighbors fuel
                { t with base := b, queue := s.queue.drop (s.qhead + 1) } u
                (s.graph.getD u []) with _ | pT
            · simp
            · obtain ⟨rT, d, hrun2, _⟩ :=
                scanNeighbors_rel (s.graph.getD u []) fuel _ _ u pT
                  hstep.symm hscT
              rw [hsc] at hrun2
              exact Option.noConfusion hrun2
          · obtain ⟨sC, aug⟩ := p
            obtain ⟨tC, d, hrunC, hstrC, hqC1, hqC2, hqC3, hqC4⟩ :=
              scanNeighbors_rel (s.graph.getD u []) fuel _
                { t with base := b, queue := s.queue.drop (s.qhead + 1) } u
                (sC, aug) hstep hsc
            rw [hrunC]
            simp only [Option.bind_eq_bind, Option.some_bind]
            by_cases haug : aug = true
            · rw [if_pos haug, if_pos haug]
              dsimp only [Option.map]
              rw [hstrC]
            · rw [if_neg haug, if_neg haug]
              refine ih sC tC hstrC ?_
              rw [hqC1, hqC2, hqC3]
              dsimp only
              rw [List.drop_append_of_le_length hlt]

theorem seed_qhead (n : Nat) (s0 : GS.St) :
    ((List.range n).foldl
      (fun s v =>
        if (s.mate.getD v none).isNone then
          { s with label := s.label.set v GS.EVEN, queue := s.queue ++ [v] }
        else s) s0).qhead = s0.qhead := by
  refine foldl_preserve (P := fun x : GS.St => x.qhead = s0.qhead) ?_ _ _ rfl
  intro a v ha
  dsimp only
  split
  · exact ha
  · exact ha

theorem findAndAugment_fifo_eq (fuel : Nat) (s : GS.St) :
    Option.map (fun p : GS.St × Bool => (GS.stripQ p.1, p.2))
      (GS.findAndAugment fuel s) =
    Option.map (fun p : GS.St × Bool => (GS.stripQ p.1, p.2))
      (GS.findAndAugmentFifo fuel s) := by
  unfold GS.findAndAugment GS.findAndAugmentFifo
  dsimp only
  refine bfsLoop_fifo_eq fuel _ _ rfl ?_
  rw [seed_qhead]
  dsimp only
  rw [List.drop_zero]

theorem stageLoop_fifo_eq :
    ∀ (fuel : Nat) (s t : GS.St),
      GS.stripQ s = GS.stripQ t →
      Option.map GS.stripQ (GS.stageLoop fuel s) =
      Option.map GS.stripQ (GS.stageLoopFifo fuel t) := by
  intro fuel
  induction fuel with
  | zero =>
    intro s t hst
    rfl
  | succ fuel ih =>
    intro s t hst
    obtain ⟨hn, hgr, hm, hb, hp, hl, hbs, hbt⟩ := stripQ_fields hst
    unfold GS.stageLoop GS.stageLoopFifo
    have hfa : GS.findAndAugment fuel s = GS.findAndAugment fuel t := by
      unfold GS.findAndAugment
      dsimp only
      simp only [hn, hgr, hm]
    have heq := findAndAugment_fifo_eq fuel t
    rw [hfa]
    rcases hfa2 : GS.findAndAugment fuel t with _ | p
    · rw [hfa2] at heq
      rcases hff : GS.findAndAugmentFifo fuel t with _ | pf
      · simp
      · rw [hff] at heq
        exact Option.noConfusion heq
    · obtain ⟨s2, aug⟩ := p
      rw [hfa2] at heq
      rcases hff : GS.findAndAugmentFifo fuel t with _ | pf
      · rw [hff] at heq
        exact Option.noConfusion heq
      · obtain ⟨t2, aug2⟩ := pf
        rw [hff] at heq
        simp only [Option.map, Option.some.injEq, Prod.mk.injEq] at heq
        obtain ⟨hstr2, haug2⟩ := heq
        simp only [Option.bind_eq_bind, Option.some_bind]
        rw [← haug2]
        by_cases haug : aug = true
        · rw [if_pos haug, if_pos haug]
          exact ih s2 t2 hstr2
        · rw [if_neg haug, if_neg haug]
          dsimp only [Option.map]
          rw [hstr2]


/-- C8 (amended): in GABOW-SIMPLE the worklist really is a FIFO queue —
the array-plus-cursor queue (`queue[qtail++]` / `queue[qhead++]`) is
observationally equal to an explicit pop-front queue, so the whole
engine returns the identical matching under either formulation.  (The
BLOSSOM-FOREST worklist pops from the back instead; `c8_counterexample`
shows the two disciplines differ there.) -/
theorem c8_amended (fuel gm n : Nat) (es : List (Int × Int)) :
    GS.maximumMatching fuel gm n es = GS.maximumMatchingFifo fuel gm n es := by
  unfold GS.maximumMatching GS.maximumMatchingFifo
  dsimp only
  have heq := stageLoop_fifo_eq fuel
    (if gm = 1 then GS.greedyInit (GS.init n es)
     else if gm = 2 then GS.greedyInitMd (GS.init n es) else GS.init n es)
    (if gm = 1 then GS.greedyInit (GS.init n es)
     else if gm = 2 then GS.greedyInitMd (GS.init n es) else GS.init n es)
    rfl
  rcases h1 : GS.stageLoop fuel
      (if gm = 1 then GS.greedyInit (GS.init n es)
       else if gm = 2 then GS.greedyInitMd (GS.init n es)
       else GS.init n es) with _ | r <;>
    rcases h2 : GS.stageLoopFifo fuel
        (if gm = 1 then GS.greedyInit (GS.init n es)
         else if gm = 2 then GS.greedyInitMd (GS.init n es)
         else GS.init n es) with _ | r1 <;>
      rw [h1, h2] at heq
  all_goals first
    | rfl
    | (simp only [Option.map] at heq
       exact Option.noConfusion heq)
    | (simp only [Option.map, Option.some.injEq] at heq
       obtain ⟨hn2, hgr2, hm2, hb2, hp2, hl2, hbs2, hbt2⟩ :=
         stripQ_fields heq
       simp only [Option.bind_eq_bind, Option.some_bind]
       rw [hn2, hm2])

end CombSuite
